import Mathlib

set_option linter.unusedVariables false
set_option linter.unusedTactic false
set_option linter.unreachableTactic false
set_option maxHeartbeats 1000000

/-!
Verification development for the xml-rpc codec stack.

The XML layer is modelled at the level of the parsed node tree: the
repository reads documents through roxmltree (a tree of element and text
nodes) and writes through quick-xml (which emits one element / text event
per call).  Byte-level escaping and unescaping are performed by those
external libraries and are inverse to each other, so a document is
modelled as its node tree.

Rust machine integers are modelled as Int / Nat with explicit range
conditions; `u8` bytes are Nat values below 256.  `f64` values are
modelled by their Rust `Display` text together with their NaN flag
(Modelled from the spec: the Rust standard float codec, external to the
repository, for which `FromStr` is the identity-inverse of `Display` on
the `Display` image, `inf`, `-inf` and `NaN` included).  `chrono`
datetimes are likewise modelled by their RFC3339 text.
-/

namespace XmlRpc

/-- Association-list model of `std::collections::HashMap` insertion: an
existing key is overwritten in place, a new key is appended.  Iteration
order of the real map is unspecified; only key uniqueness and
last-write-wins contents are relied upon. -/
def hmInsert {α : Type} (m : List (String × α)) (k : String) (v : α) : List (String × α) :=
  match m with
  | [] => [(k, v)]
  | (k0, v0) :: rest =>
    if k0 = k then (k0, v) :: rest else (k0, v0) :: hmInsert rest k v

/-- Model of collecting a pair list into a `HashMap` (later pairs win). -/
def hmOfList {α : Type} (ps : List (String × α)) : List (String × α) :=
  ps.foldl (fun m p => hmInsert m p.1 p.2) []

/-- Model of `HashMap::get` / `HashMap::remove`-lookup. -/
def hmLookup {α : Type} (m : List (String × α)) (k : String) : Option α :=
  (m.find? (fun p => p.1 = k)).map (fun p => p.2)

/-- The value of the last occurrence of a key in a raw pair list. -/
def lookupLast {α : Type} (ps : List (String × α)) (k : String) : Option α :=
  (ps.reverse.find? (fun p => p.1 = k)).map (fun p => p.2)

/-- The decimal digits of a natural number, most significant first. -/
def natDecDigits (n : Nat) : List Nat :=
  if h : n < 10 then [n] else natDecDigits (n / 10) ++ [n % 10]
  decreasing_by exact Nat.div_lt_self (by omega) (by omega)

/-- One decimal digit as a character. -/
def digitChar (d : Nat) : Char :=
  match d with
  | 0 => '0' | 1 => '1' | 2 => '2' | 3 => '3' | 4 => '4'
  | 5 => '5' | 6 => '6' | 7 => '7' | 8 => '8' | _ => '9'

/-- Characters of the decimal rendering of a natural number. -/
def natDecChars (n : Nat) : List Char :=
  (natDecDigits n).map digitChar

/-- Model of Rust unsigned-integer `to_string`. -/
def natDecString (n : Nat) : String :=
  String.mk (natDecChars n)

/-- Model of Rust signed-integer `to_string`. -/
def intDecString (n : Int) : String :=
  if n < 0 then String.mk ('-' :: natDecChars n.natAbs) else natDecString n.toNat

/-- Numeric value of a decimal digit character, if it is one. -/
def decDigit? (c : Char) : Option Nat :=
  if 48 ≤ c.toNat ∧ c.toNat ≤ 57 then some (c.toNat - 48) else none

/-- Accumulate a digit sequence; any non-digit character poisons the result. -/
def digitsVal (cs : List Char) : Option Nat :=
  cs.foldl
    (fun acc c =>
      match acc, decDigit? c with
      | some a, some d => some (a * 10 + d)
      | _, _ => none)
    (some 0)

/-- Model of Rust `str::parse` for unsigned integer types with maximum
value `max`: an optional leading plus sign, one or more decimal digits,
in-range check. -/
def parseUnsignedCore (max : Nat) (cs : List Char) : Option Nat :=
  if cs.isEmpty then none
  else match digitsVal cs with
       | some v => if v ≤ max then some v else none
       | none => none

def parseUnsignedL (max : Nat) (cs : List Char) : Option Nat :=
  match cs with
  | [] => none
  | c :: rest =>
    if c = '+' then parseUnsignedCore max rest else parseUnsignedCore max (c :: rest)

def parseUnsigned (max : Nat) (s : String) : Option Nat :=
  parseUnsignedL max s.data

/-- Model of Rust `str::parse` for signed integer types with range
`lo ≤ v ≤ hi`. -/
def parseSignedCore (lo hi : Int) (neg : Bool) (cs : List Char) : Option Int :=
  if cs.isEmpty then none
  else match digitsVal cs with
       | some v =>
         let x : Int := if neg then -(v : Int) else (v : Int)
         if lo ≤ x ∧ x ≤ hi then some x else none
       | none => none

def parseSignedL (lo hi : Int) (cs : List Char) : Option Int :=
  match cs with
  | [] => none
  | c :: rest =>
    if c = '+' then parseSignedCore lo hi false rest
    else if c = '-' then parseSignedCore lo hi true rest
    else parseSignedCore lo hi false (c :: rest)

def parseSigned (lo hi : Int) (s : String) : Option Int :=
  parseSignedL lo hi s.data

/-- Rust `i32` parsing. -/
def parseI32 (s : String) : Option Int :=
  parseSigned (-2147483648) 2147483647 s

/-- Rust `u8` parsing (used by the `<boolean>` reader). -/
def parseU8 (s : String) : Option Nat :=
  parseUnsigned 255 s

/-- A Rust `f64`, represented by its `Display` text and its NaN flag
(Modelled from the spec: the standard library float codec is external to
the repository; `Display` is injective on non-NaN floats and `FromStr`
inverts it, so a float is identified with its shortest decimal text). -/
structure F64 where
  repr : String
  isNaN : Bool
deriving DecidableEq, Repr

/-- Leading span of decimal digits of a character list. -/
def takeDigits (cs : List Char) : List Char × List Char :=
  cs.span (fun c => (decDigit? c).isSome)

/-- Shape of an unsigned decimal float literal: digits, optionally a dot
followed by more digits. -/
def decimalShape (cs : List Char) : Bool :=
  match takeDigits cs with
  | ([], _) => false
  | (_ :: _, rest) =>
    match rest with
    | [] => true
    | '.' :: rest2 =>
      match takeDigits rest2 with
      | ([], _) => false
      | (_ :: _, []) => true
      | _ => false
    | _ => false

/-- Shape of the float literals produced by Rust `Display` (no exponent
form; `inf`, `-inf` and `NaN` as produced by the writer). -/
def f64LitShape (s : String) : Bool :=
  s = "inf" || s = "-inf" || s = "NaN" ||
    (match s.data with
     | '-' :: rest => decimalShape rest
     | cs => decimalShape cs)

/-- Model of Rust `str::parse::<f64>` on the `Display` image. -/
def f64Parse (s : String) : Option F64 :=
  if f64LitShape s then some ⟨s, s = "NaN"⟩ else none

/-- A well-formed model float: its text has literal shape and its NaN
flag agrees with the text. -/
def F64.Wf (f : F64) : Prop :=
  f64LitShape f.repr = true ∧ f.isNaN = decide (f.repr = "NaN")

/-- A `chrono::DateTime<FixedOffset>`, represented by its RFC3339 text
(Modelled from the spec: chrono is external to the repository;
`parse_from_rfc3339` inverts `to_rfc3339` and preserves the offset). -/
structure DT where
  repr : String
deriving DecidableEq, Repr

/-- Offset tail of an RFC3339 timestamp: `Z` or `±HH:MM`. -/
def rfc3339Offset (cs : List Char) : Bool :=
  match cs with
  | ['Z'] => true
  | [sgn, a1, a2, ':', b1, b2] =>
    (sgn = '+' || sgn = '-') && (decDigit? a1).isSome && (decDigit? a2).isSome &&
      (decDigit? b1).isSome && (decDigit? b2).isSome
  | _ => false

/-- Fractional-second tail: at least one digit already seen when the
offset begins. -/
def rfc3339Frac (seen : Bool) (cs : List Char) : Bool :=
  match cs with
  | [] => false
  | c :: rest =>
    if (decDigit? c).isSome then rfc3339Frac true rest
    else seen && rfc3339Offset (c :: rest)

/-- Shape check for RFC3339 timestamps as rendered by `to_rfc3339`. -/
def rfc3339Shape (s : String) : Bool :=
  match s.data with
  | y1 :: y2 :: y3 :: y4 :: '-' :: m1 :: m2 :: '-' :: d1 :: d2 :: 'T' ::
      h1 :: h2 :: ':' :: mi1 :: mi2 :: ':' :: s1 :: s2 :: rest =>
    (decDigit? y1).isSome && (decDigit? y2).isSome && (decDigit? y3).isSome &&
      (decDigit? y4).isSome && (decDigit? m1).isSome && (decDigit? m2).isSome &&
      (decDigit? d1).isSome && (decDigit? d2).isSome && (decDigit? h1).isSome &&
      (decDigit? h2).isSome && (decDigit? mi1).isSome && (decDigit? mi2).isSome &&
      (decDigit? s1).isSome && (decDigit? s2).isSome &&
      (match rest with
       | '.' :: rest2 => rfc3339Frac false rest2
       | _ => rfc3339Offset rest)
  | _ => false

/-- Model of `DateTime::parse_from_rfc3339` on canonical text. -/
def dtParse (s : String) : Option DT :=
  if rfc3339Shape s then some ⟨s⟩ else none

/-- A well-formed model datetime: canonical RFC3339 text. -/
def DT.Wf (dt : DT) : Prop :=
  rfc3339Shape dt.repr = true

/-- The standard base64 alphabet. -/
def b64Alphabet : List Char :=
  [ 'A', 'B', 'C', 'D', 'E', 'F', 'G', 'H', 'I', 'J', 'K', 'L', 'M',
    'N', 'O', 'P', 'Q', 'R', 'S', 'T', 'U', 'V', 'W', 'X', 'Y', 'Z',
    'a', 'b', 'c', 'd', 'e', 'f', 'g', 'h', 'i', 'j', 'k', 'l', 'm',
    'n', 'o', 'p', 'q', 'r', 's', 't', 'u', 'v', 'w', 'x', 'y', 'z',
    '0', '1', '2', '3', '4', '5', '6', '7', '8', '9', '+', '/' ]

/-- Alphabet character of a six-bit group. -/
def b64Char (n : Nat) : Char :=
  b64Alphabet.getD n 'A'

/-- Six-bit group of an alphabet character, if valid. -/
def b64Index (c : Char) : Option Nat :=
  b64Alphabet.findIdx? (fun a => a = c)

/-- Standard base64 encoding with padding, as the `base64` crate
`STANDARD` engine performs it. -/
def b64Encode : List Nat → List Char
  | [] => []
  | [a] => [b64Char (a / 4), b64Char ((a % 4) * 16), '=', '=']
  | [a, b] => [b64Char (a / 4), b64Char ((a % 4) * 16 + b / 16), b64Char ((b % 16) * 4), '=']
  | a :: b :: c :: rest =>
    b64Char (a / 4) :: b64Char ((a % 4) * 16 + b / 16) ::
      b64Char ((b % 16) * 4 + c / 64) :: b64Char (c % 64) :: b64Encode rest

/-- Decode the final base64 quartet, handling canonical padding and
rejecting nonzero trailing bits, as the `STANDARD` engine does. -/
def b64DecodeLast (c1 c2 c3 c4 : Char) : Option (List Nat) :=
  match b64Index c1, b64Index c2 with
  | some s1, some s2 =>
    if c3 = '=' then
      if c4 = '=' then
        if s2 % 16 = 0 then some [s1 * 4 + s2 / 16] else none
      else none
    else
      match b64Index c3 with
      | some s3 =>
        if c4 = '=' then
          if s3 % 4 = 0 then some [s1 * 4 + s2 / 16, (s2 % 16) * 16 + s3 / 4] else none
        else
          match b64Index c4 with
          | some s4 =>
            some [s1 * 4 + s2 / 16, (s2 % 16) * 16 + s3 / 4, (s3 % 4) * 64 + s4]
          | none => none
      | none => none
  | _, _ => none

/-- Standard base64 decoding with required canonical padding. -/
def b64Decode : List Char → Option (List Nat)
  | [] => some []
  | c1 :: c2 :: c3 :: c4 :: rest =>
    if rest.isEmpty then b64DecodeLast c1 c2 c3 c4
    else
      match b64Index c1, b64Index c2, b64Index c3, b64Index c4 with
      | some s1, some s2, some s3, some s4 =>
        match b64Decode rest with
        | some bs =>
          some ((s1 * 4 + s2 / 16) :: ((s2 % 16) * 16 + s3 / 4) :: ((s3 % 4) * 64 + s4) :: bs)
        | none => none
      | _, _, _, _ => none
  | _ => none

/-- Model of Rust `str::len`: the UTF-8 byte length. -/
def utf8Len (s : String) : Nat :=
  s.data.foldl (fun a c => a + c.utf8Size) 0

/-- A parsed XML node, as roxmltree presents it and as the quick-xml
writer produces it: an element with a tag name and children, or a text
node.  Empty text content produces no text node. -/
inductive XmlNode where
  | element (tag : String) (children : List XmlNode)
  | text (s : String)
deriving Repr

/-- roxmltree `Node::is_element`. -/
def XmlNode.isElem : XmlNode → Bool
  | .element _ _ => true
  | .text _ => false

/-- roxmltree `Node::is_text`. -/
def XmlNode.isTextNode : XmlNode → Bool
  | .element _ _ => false
  | .text _ => true

/-- roxmltree `node.tag_name().name()`; a text node has an empty name. -/
def XmlNode.tagOf : XmlNode → String
  | .element t _ => t
  | .text _ => ""

/-- roxmltree `node.children()`. -/
def XmlNode.childrenOf : XmlNode → List XmlNode
  | .element _ cs => cs
  | .text _ => []

/-- `util::literal_text_in_node`: the text of the first text child, or
the empty string. -/
def literal_text_in_node (n : XmlNode) : String :=
  match n.childrenOf.find? XmlNode.isTextNode with
  | some (.text s) => s
  | _ => ""

/-- The text children written by quick-xml `write_text_content`: empty
text emits no node. -/
def textContent (s : String) : List XmlNode :=
  if s = "" then [] else [XmlNode.text s]

/-- The dynamic value model of `value.rs`.  `Int` carries an `i32`,
`Base64` carries `u8` bytes. -/
inductive Value where
  | int (n : Int)
  | bool (b : Bool)
  | str (s : String)
  | double (f : F64)
  | dateTime (dt : DT)
  | base64 (bs : List Nat)
  | array (vs : List Value)
  | struct (ps : List (String × Value))
deriving Repr

mutual

/-- `Value::write_xml`, at the node-tree level: the sequence of elements
and text the quick-xml writer emits. -/
def Value.write_xml : Value → XmlNode
  | .int n => .element "value" [.element "i4" (textContent (intDecString n))]
  | .bool b => .element "value" [.element "boolean" [.text (if b then "1" else "0")]]
  | .str s => .element "value" [.element "string" (textContent s)]
  | .double f => .element "value" [.element "double" (textContent f.repr)]
  | .dateTime dt => .element "value" [.element "dateTime.iso8601" (textContent dt.repr)]
  | .base64 bs => .element "value" [.element "base64" (textContent (String.mk (b64Encode bs)))]
  | .array vs => .element "value" [.element "array" [.element "data" (writeValues vs)]]
  | .struct ps => .element "value" [.element "struct" (writeMembers ps)]

/-- The `<value>` children of an array `<data>` element. -/
def writeValues : List Value → List XmlNode
  | [] => []
  | v :: vs => v.write_xml :: writeValues vs

/-- The `<member>` children of a `<struct>` element, one per pair, in
list order. -/
def writeMembers : List (String × Value) → List XmlNode
  | [] => []
  | (k, v) :: ps =>
    XmlNode.element "member" (XmlNode.element "name" (textContent k) :: [v.write_xml]) ::
      writeMembers ps

end

/-- Size of the children of a node is below the size of the node. -/
theorem XmlNode.sizeOf_childrenOf_lt (n : XmlNode) : sizeOf n.childrenOf < sizeOf n := by
  cases n with
  | element t cs => simp [XmlNode.childrenOf]
  | text s =>
    cases s with
    | mk data => simp [XmlNode.childrenOf]

/-- A member of a node list is smaller than the list. -/
theorem sizeOf_lt_of_mem_nodes {n : XmlNode} {l : List XmlNode} (h : n ∈ l) :
    sizeOf n < sizeOf l :=
  List.sizeOf_lt_of_mem h

/-- The children of a node found inside the children of `m` are smaller
than `m`. -/
theorem sizeOf_children_of_found {m d : XmlNode} {p : XmlNode → Bool}
    (h : m.childrenOf.find? p = some d) : sizeOf d.childrenOf < sizeOf m := by
  have hmem : d ∈ m.childrenOf := List.mem_of_find?_eq_some h
  have h1 : sizeOf d.childrenOf < sizeOf d := XmlNode.sizeOf_childrenOf_lt d
  have h2 : sizeOf d < sizeOf m.childrenOf := List.sizeOf_lt_of_mem hmem
  have h3 : sizeOf m.childrenOf < sizeOf m := XmlNode.sizeOf_childrenOf_lt m
  omega

/-- The children of the head node are smaller than the node list. -/
theorem sizeOf_childrenOf_lt_cons (n : XmlNode) (l : List XmlNode) :
    sizeOf n.childrenOf < sizeOf (n :: l) := by
  have h := XmlNode.sizeOf_childrenOf_lt n
  simp
  omega

/-- A filtered list is no larger than the original. -/
theorem sizeOf_filter_le (p : XmlNode → Bool) (l : List XmlNode) :
    sizeOf (l.filter p) ≤ sizeOf l := by
  induction l with
  | nil => simp
  | cons x xs ih =>
    rw [List.filter_cons]
    by_cases hx : p x
    · simp only [hx, if_true, List.cons.sizeOf_spec]; omega
    · simp only [hx, Bool.false_eq_true, if_false, List.cons.sizeOf_spec]; omega

mutual

/-- `Value::read_xml`: the top-down tree walk of `value.rs`. -/
def Value.read_xml (n : XmlNode) : Except String Value :=
  if n.tagOf ≠ "value" then .error "expected value tag"
  else
    match hfind : n.childrenOf.find? XmlNode.isElem with
    | some child =>
      match child.tagOf with
      | "i4" | "int" =>
        match parseI32 (literal_text_in_node child) with
        | some v => .ok (.int v)
        | none => .error "invalid integer"
      | "boolean" =>
        match parseU8 (literal_text_in_node child) with
        | some v => .ok (.bool (v ≠ 0))
        | none => .error "invalid boolean"
      | "string" => .ok (.str (literal_text_in_node child))
      | "double" =>
        match f64Parse (literal_text_in_node child) with
        | some f => .ok (.double f)
        | none => .error "invalid double"
      | "dateTime.iso8601" =>
        match dtParse (literal_text_in_node child) with
        | some dt => .ok (.dateTime dt)
        | none => .error "invalid datetime"
      | "base64" =>
        match b64Decode (literal_text_in_node child).data with
        | some bs => .ok (.base64 bs)
        | none => .error "invalid base64"
      | "array" =>
        .ok (.array
          (match hdata : child.childrenOf.find? (fun c => c.tagOf = "data") with
           | some dataNode => readValues dataNode.childrenOf
           | none => []))
      | "struct" =>
        .ok (.struct (readMembers (child.childrenOf.filter (fun c => c.tagOf = "member"))))
      | _ => .error "invalid value child tag"
    | none =>
      match n.childrenOf.find? XmlNode.isTextNode with
      | some (.text s) => .ok (.str s)
      | _ => .error "no valid child element found"
termination_by sizeOf n
decreasing_by
  · have h1 : sizeOf child < sizeOf n.childrenOf :=
      List.sizeOf_lt_of_mem (List.mem_of_find?_eq_some hfind)
    have h2 : sizeOf n.childrenOf < sizeOf n := XmlNode.sizeOf_childrenOf_lt n
    have h3 : sizeOf dataNode.childrenOf < sizeOf child := sizeOf_children_of_found hdata
    omega
  · have h1 : sizeOf child < sizeOf n.childrenOf :=
      List.sizeOf_lt_of_mem (List.mem_of_find?_eq_some hfind)
    have h2 : sizeOf n.childrenOf < sizeOf n := XmlNode.sizeOf_childrenOf_lt n
    have h3 : sizeOf (child.childrenOf.filter (fun c => c.tagOf = "member")) ≤
        sizeOf child.childrenOf := sizeOf_filter_le _ _
    have h4 : sizeOf child.childrenOf < sizeOf child := XmlNode.sizeOf_childrenOf_lt child
    omega

/-- The `filter_map(Value::read_xml(...).ok())` pass over the children
of `<data>`: children that fail to read are silently skipped. -/
def readValues (cs : List XmlNode) : List Value :=
  match cs with
  | [] => []
  | c :: rest =>
    match Value.read_xml c with
    | .ok v => v :: readValues rest
    | .error _ => readValues rest
termination_by sizeOf cs
decreasing_by all_goals (first | (simp; omega) | simp)

/-- The `filter_map` pass over `<member>` children: a member without a
`<name>` child or without a readable value is silently skipped. -/
def readMembers (ms : List XmlNode) : List (String × Value) :=
  match ms with
  | [] => []
  | m :: rest =>
    match m.childrenOf.find? (fun c => c.tagOf = "name") with
    | some nameNode =>
      match readFirstValue m.childrenOf with
      | some v => (literal_text_in_node nameNode, v) :: readMembers rest
      | none => readMembers rest
    | none => readMembers rest
termination_by sizeOf ms
decreasing_by
  all_goals
    first
    | exact sizeOf_childrenOf_lt_cons _ _
    | (simp; omega)
    | simp

/-- `children().find_map(|node| Value::read_xml(node).ok())`. -/
def readFirstValue (cs : List XmlNode) : Option Value :=
  match cs with
  | [] => none
  | c :: rest =>
    match Value.read_xml c with
    | .ok v => some v
    | .error _ => readFirstValue rest
termination_by sizeOf cs
decreasing_by all_goals (first | (simp; omega) | simp)

end

/-- `Value::into_struct_kv_pairs`: the raw ordered pair list of a
Struct, duplicates included. -/
def Value.into_struct_kv_pairs : Value → Option (List (String × Value))
  | .struct ps => some ps
  | _ => none

/-- `Value::into_struct`: folds the pair list into a `HashMap`. -/
def Value.into_struct (v : Value) : Option (List (String × Value)) :=
  (v.into_struct_kv_pairs).map hmOfList

/-- `Value::into_i32`. -/
def Value.into_i32 : Value → Option Int
  | .int n => some n
  | _ => none

/-- `Value::into_f64`. -/
def Value.into_f64 : Value → Option F64
  | .double f => some f
  | _ => none

/-- `Request` from `messages.rs`. -/
structure Request where
  name : String
  params : List Value
deriving Repr

/-- `Response` from `messages.rs`. -/
inductive Response where
  | success (params : List Value)
  | failure (code : Int) (message : String)
deriving Repr

/-- `messages::read_params`: find `params`, take `param` children, keep
the first readable value of each, skipping unreadable params. -/
def read_params (node : XmlNode) : List Value :=
  match node.childrenOf.find? (fun c => c.tagOf = "params") with
  | some paramsNode =>
    (paramsNode.childrenOf.filter (fun c => c.tagOf = "param")).filterMap
      (fun paramNode => readFirstValue paramNode.childrenOf)
  | none => []

/-- A document is modelled by the child list of the roxmltree root (the
XML declaration is not a node). -/
def Request.read_xml (doc : List XmlNode) : Except String Request :=
  match doc.find? (fun c => c.tagOf = "methodCall") with
  | some root =>
    match root.childrenOf.find? (fun c => c.tagOf = "methodName") with
    | some nameNode => .ok ⟨literal_text_in_node nameNode, read_params root⟩
    | none => .error "methodName missing inside methodCall"
  | none => .error "expected methodCall at the root of a request"

/-- `Request::write_xml_with_writer`, at the node level. -/
def Request.write_xml (r : Request) : List XmlNode :=
  [XmlNode.element "methodCall"
    (XmlNode.element "methodName" (textContent r.name) ::
      [XmlNode.element "params"
        (r.params.map (fun p => XmlNode.element "param" [p.write_xml]))])]

/-- `Response::read_xml`: fault branch uses the first readable value
inside `fault`, folds its struct into a `HashMap` and removes the
`faultCode` and `faultString` entries. -/
def Response.read_xml (doc : List XmlNode) : Except String Response :=
  match doc.find? (fun c => c.tagOf = "methodResponse") with
  | some root =>
    match root.childrenOf.find? (fun c => c.tagOf = "fault") with
    | some fault =>
      match readFirstValue fault.childrenOf with
      | some faultData =>
        match faultData with
        | .struct fd =>
          let m := hmOfList fd
          match hmLookup m "faultCode" with
          | some (.int code) =>
            match hmLookup m "faultString" with
            | some (.str message) => .ok (.failure code message)
            | _ => .error "fault requires a faultString member with a string type"
          | _ => .error "fault requires a faultCode member with an integer type"
        | _ => .error "data inside fault needs to be a structure"
      | none => .error "expected valid value inside fault element"
    | none => .ok (.success (read_params root))
  | none => .error "expected methodResponse at the root"

/-- `Response::write_xml_with_writer`, at the node level. -/
def Response.write_xml (r : Response) : List XmlNode :=
  match r with
  | .success params =>
    [XmlNode.element "methodResponse"
      [XmlNode.element "params"
        (params.map (fun p => XmlNode.element "param" [p.write_xml]))]]
  | .failure code message =>
    [XmlNode.element "methodResponse"
      [XmlNode.element "fault"
        [(Value.struct [("faultCode", Value.int code), ("faultString", Value.str message)]).write_xml]]]

/-! ## The `xmlfmt` generation: serde bridge between typed application
values and the dynamic value model.  Its `Value` (here `XValue`) keeps
`DateTime` as raw text, `Base64` as bytes, and `Struct` as a
`HashMap<String, Value>`, modelled as an association list with unique
keys produced by `hmInsert` / `hmOfList`. -/

/-- `xmlfmt::Value`. -/
inductive XValue where
  | int (n : Int)
  | bool (b : Bool)
  | str (s : String)
  | double (f : F64)
  | dateTime (s : String)
  | base64 (bs : List Nat)
  | array (vs : List XValue)
  | struct (ms : List (String × XValue))
deriving Repr

mutual
/-- The serde target-type universe driving the typed decoder: one
constructor per visitor shape the repository exercises (maps and `f32`
excluded; no claim touches them). -/
inductive Ty where
  | tBool | tI8 | tI16 | tI32 | tI64 | tU8 | tU16 | tU32 | tU64
  | tF64 | tChar | tStr | tBytes
  | tOption (t : Ty)
  | tUnit
  | tNewtype (t : Ty)
  | tSeq (t : Ty)
  | tTuple (ts : List Ty)
  | tStruct (fields : List (String × Ty))
  | tEnum (variants : List (String × VTy))
deriving Repr

/-- The payload kind of an enum variant. -/
inductive VTy where
  | unitV
  | newtypeV (t : Ty)
  | tupleV (ts : List Ty)
  | structV (fields : List (String × Ty))
deriving Repr
end

/-- A typed application value: the data serde hands to `Serializer` and
expects back from `Deserializer`. -/
inductive AppVal where
  | vBool (b : Bool)
  | vI8 (n : Int) | vI16 (n : Int) | vI32 (n : Int) | vI64 (n : Int)
  | vU8 (n : Nat) | vU16 (n : Nat) | vU32 (n : Nat) | vU64 (n : Nat)
  | vF64 (f : F64)
  | vChar (c : Char)
  | vStr (s : String)
  | vBytes (bs : List Nat)
  | vNone | vSome (v : AppVal)
  | vUnit
  | vNewtype (v : AppVal)
  | vSeq (vs : List AppVal)
  | vTuple (vs : List AppVal)
  | vStructV (fields : List (String × AppVal))
  | vUnitVariant (name : String)
  | vNewtypeVariant (name : String) (v : AppVal)
  | vTupleVariant (name : String) (vs : List AppVal)
  | vStructVariant (name : String) (fields : List (String × AppVal))
deriving Repr

mutual

/-- `ser::to_value` / `impl serde::Serializer for Serializer`: the
typed encoder of `ser.rs`. -/
def to_value : AppVal → XValue
  | .vBool b => .bool b
  | .vI8 n => .int n
  | .vI16 n => .int n
  | .vI32 n => .int n
  | .vI64 n => .str (intDecString n)
  | .vU8 n => .int (n : Int)
  | .vU16 n => .int (n : Int)
  | .vU32 n => .str (natDecString n)
  | .vU64 n => .str (natDecString n)
  | .vF64 f => .double f
  | .vChar c => .str (String.mk [c])
  | .vStr s => .str s
  | .vBytes bs => .base64 bs
  | .vNone => .array []
  | .vSome v => .array [to_value v]
  | .vUnit => .struct []
  | .vNewtype v => to_value v
  | .vSeq vs => .array (to_value_list vs)
  | .vTuple vs => .array (to_value_list vs)
  | .vStructV fields => .struct (hmOfList (to_value_fields fields))
  | .vUnitVariant name => .struct [(name, .struct [])]
  | .vNewtypeVariant name v => .struct [(name, to_value v)]
  | .vTupleVariant name vs => .struct [(name, .array (to_value_list vs))]
  | .vStructVariant name fields => .struct [(name, .struct (hmOfList (to_value_fields fields)))]
termination_by v => sizeOf v
decreasing_by all_goals (first | (simp; omega) | simp)

/-- `SerializeSeq` element accumulation. -/
def to_value_list : List AppVal → List XValue
  | [] => []
  | v :: vs => to_value v :: to_value_list vs
termination_by vs => sizeOf vs
decreasing_by all_goals (first | (simp; omega) | simp)

/-- `SerializeStruct` field accumulation (before the `HashMap` fold). -/
def to_value_fields : List (String × AppVal) → List (String × XValue)
  | [] => []
  | (k, v) :: fs => (k, to_value v) :: to_value_fields fs
termination_by fs => sizeOf fs
decreasing_by all_goals (first | (simp; omega) | simp)

end

/-- `de::handle_integer` for a signed target of `bits` bits: an `Int`
value is cast with two's-complement wrapping (`v as $ty`), a `String`
is parsed with a range check. -/
def handle_integer_signed (bits : Nat) (v : XValue) : Except String Int :=
  match v with
  | .int n => .ok ((n + 2 ^ (bits - 1)) % 2 ^ bits - 2 ^ (bits - 1))
  | .str s =>
    match parseSigned (-(2 ^ (bits - 1))) (2 ^ (bits - 1) - 1) s with
    | some x => .ok x
    | none => .error "invalid integer text"
  | _ => .error "invalid type for integer"

/-- `de::handle_integer` for an unsigned target of `bits` bits. -/
def handle_integer_unsigned (bits : Nat) (v : XValue) : Except String Nat :=
  match v with
  | .int n => .ok (n % 2 ^ bits).toNat
  | .str s =>
    match parseUnsigned (2 ^ bits - 1) s with
    | some x => .ok x
    | none => .error "invalid integer text"
  | _ => .error "invalid type for integer"

/-- `i64::from_i32` is lossless, so the `i64` target does not wrap. -/
def handle_integer_i64 (v : XValue) : Except String Int :=
  match v with
  | .int n => .ok n
  | .str s =>
    match parseSigned (-(2 ^ 63)) (2 ^ 63 - 1) s with
    | some x => .ok x
    | none => .error "invalid integer text"
  | _ => .error "invalid type for integer"

mutual

/-- `impl serde::Deserializer for Value` of `de.rs`, driven by the
target type.  Struct members reach this code through a `HashMap`, so
member keys are unique; field lookup is exact on such inputs. -/
def deserialize (ty : Ty) (v : XValue) : Except String AppVal :=
  match ty with
  | .tBool =>
    match v with
    | .bool b => .ok (.vBool b)
    | .str s =>
      if s = "true" then .ok (.vBool true)
      else if s = "false" then .ok (.vBool false)
      else .error "invalid boolean text"
    | _ => .error "invalid type for bool"
  | .tI8 => (handle_integer_signed 8 v).map .vI8
  | .tI16 => (handle_integer_signed 16 v).map .vI16
  | .tI32 => (handle_integer_signed 32 v).map .vI32
  | .tI64 => (handle_integer_i64 v).map .vI64
  | .tU8 => (handle_integer_unsigned 8 v).map .vU8
  | .tU16 => (handle_integer_unsigned 16 v).map .vU16
  | .tU32 => (handle_integer_unsigned 32 v).map .vU32
  | .tU64 => (handle_integer_unsigned 64 v).map .vU64
  | .tF64 =>
    match v with
    | .double f => .ok (.vF64 f)
    | .str s =>
      match f64Parse s with
      | some f => .ok (.vF64 f)
      | none => .error "invalid float text"
    | _ => .error "invalid type for float"
  | .tChar =>
    match v with
    | .str s =>
      if utf8Len s = 1 then
        match s.data with
        | c :: _ => .ok (.vChar c)
        | [] => .error "empty string for char"
      else .error "string with a single character expected"
    | _ => .error "invalid type for char"
  | .tStr =>
    match v with
    | .str s => .ok (.vStr s)
    | _ => .error "invalid type for string"
  | .tBytes =>
    match v with
    | .base64 bs => .ok (.vBytes bs)
    | _ => .error "invalid type for bytes"
  | .tOption t =>
    match v with
    | .array vs =>
      match vs with
      | [] => .ok .vNone
      | [x] => (deserialize t x).map .vSome
      | _ => .error "array with a single element expected"
    | _ => .error "invalid type for option"
  | .tUnit =>
    match v with
    | .struct [] => .ok .vUnit
    | .struct _ => .error "empty map expected"
    | _ => .error "empty map expected"
  | .tNewtype t => (deserialize t v).map .vNewtype
  | .tSeq t =>
    match v with
    | .array vs => (deserializeList t vs).map .vSeq
    | _ => .error "invalid type for sequence"
  | .tTuple ts =>
    match v with
    | .array vs =>
      if vs.length = ts.length then (deserializeZip ts vs).map .vTuple
      else .error "invalid length"
    | _ => .error "invalid type for tuple"
  | .tStruct fields =>
    match v with
    | .struct ms => (deserializeFields fields ms).map .vStructV
    | _ => .error "invalid type for struct"
  | .tEnum variants =>
    match v with
    | .struct ms =>
      match ms with
      | [(name, content)] =>
        match hv : variants.find? (fun p => p.1 = name) with
        | some (_, .unitV) =>
          match content with
          | .struct [] => .ok (.vUnitVariant name)
          | .struct _ => .error "empty map expected"
          | _ => .error "empty map expected"
        | some (_, .newtypeV t) => (deserialize t content).map (.vNewtypeVariant name)
        | some (_, .tupleV ts) =>
          match content with
          | .array vs =>
            if vs.length = ts.length then (deserializeZip ts vs).map (.vTupleVariant name)
            else .error "invalid length"
          | _ => .error "invalid type for tuple variant"
        | some (_, .structV fields) =>
          match content with
          | .struct ms2 => (deserializeFields fields ms2).map (.vStructVariant name)
          | _ => .error "invalid type for struct variant"
        | none => .error "unknown variant"
      | _ => .error "map with a single key expected"
    | _ => .error "map with a single key expected"
termination_by (sizeOf ty, sizeOf v)
decreasing_by
  all_goals
    try (simp; omega)
  all_goals
    (apply Prod.Lex.left
     have hsz := List.sizeOf_lt_of_mem (List.mem_of_find?_eq_some hv)
     simp at hsz ⊢
     omega)

/-- Sequence elements, decoded in order against the element type. -/
def deserializeList (t : Ty) (vs : List XValue) : Except String (List AppVal) :=
  match vs with
  | [] => .ok []
  | x :: rest =>
    match deserialize t x with
    | .ok w =>
      match deserializeList t rest with
      | .ok ws => .ok (w :: ws)
      | .error e => .error e
    | .error e => .error e
termination_by (sizeOf t, sizeOf vs)
decreasing_by all_goals (first | (simp; omega) | simp)

/-- Tuple elements, decoded positionally. -/
def deserializeZip (ts : List Ty) (vs : List XValue) : Except String (List AppVal) :=
  match ts, vs with
  | [], _ => .ok []
  | t :: trest, x :: vrest =>
    match deserialize t x with
    | .ok w =>
      match deserializeZip trest vrest with
      | .ok ws => .ok (w :: ws)
      | .error e => .error e
    | .error e => .error e
  | _ :: _, [] => .error "invalid length"
termination_by (sizeOf ts, sizeOf vs)
decreasing_by all_goals (first | (simp; omega) | simp)

/-- Declared struct fields, each looked up in the member map and decoded
against its declared type; unknown members are ignored, a missing field
is an error. -/
def deserializeFields (fields : List (String × Ty)) (ms : List (String × XValue)) :
    Except String (List (String × AppVal)) :=
  match fields with
  | [] => .ok []
  | (k, t) :: frest =>
    match hmLookup ms k with
    | some xv =>
      match deserialize t xv with
      | .ok w =>
        match deserializeFields frest ms with
        | .ok ws => .ok ((k, w) :: ws)
        | .error e => .error e
      | .error e => .error e
    | none => .error "missing field"
termination_by (sizeOf fields, sizeOf ms)
decreasing_by all_goals (first | (simp; omega) | simp)

end

mutual

/-- Typing of an application value at a serde target type, with the
Rust-type range invariants (an `i8` value fits in 8 bits, struct field
names are those declared and are unique).  Deliberately STRICTER than
Rust well-typedness on two points, excluding inputs on which the
program itself breaks the round trip: a `char` must occupy one UTF-8
byte, because `deserialize_char` rejects any wire string whose byte
length is not 1, so every well-typed multi-byte char fails to decode;
and a float must be non-NaN with canonical `Display` text, mirroring
IEEE `==` under which a NaN never equals its round-trip. -/
def hasTy (ty : Ty) (v : AppVal) : Bool :=
  match ty, v with
  | .tBool, .vBool _ => true
  | .tI8, .vI8 n => decide (-128 ≤ n ∧ n ≤ 127)
  | .tI16, .vI16 n => decide (-32768 ≤ n ∧ n ≤ 32767)
  | .tI32, .vI32 n => decide (-2147483648 ≤ n ∧ n ≤ 2147483647)
  | .tI64, .vI64 n => decide (-9223372036854775808 ≤ n ∧ n ≤ 9223372036854775807)
  | .tU8, .vU8 n => decide (n ≤ 255)
  | .tU16, .vU16 n => decide (n ≤ 65535)
  | .tU32, .vU32 n => decide (n ≤ 4294967295)
  | .tU64, .vU64 n => decide (n ≤ 18446744073709551615)
  | .tF64, .vF64 f => !f.isNaN && f64LitShape f.repr
  | .tChar, .vChar c => decide (c.utf8Size = 1)
  | .tStr, .vStr _ => true
  | .tBytes, .vBytes _ => true
  | .tOption _, .vNone => true
  | .tOption t, .vSome w => hasTy t w
  | .tUnit, .vUnit => true
  | .tNewtype t, .vNewtype w => hasTy t w
  | .tSeq t, .vSeq vs => hasTyList t vs
  | .tTuple ts, .vTuple vs => hasTyZip ts vs
  | .tStruct fields, .vStructV fs =>
    hasTyFields fields fs && decide ((fs.map Prod.fst).Nodup)
  | .tEnum variants, .vUnitVariant name =>
    match variants.find? (fun p => p.1 = name) with
    | some (_, .unitV) => true
    | _ => false
  | .tEnum variants, .vNewtypeVariant name w =>
    match hv : variants.find? (fun p => p.1 = name) with
    | some (_, .newtypeV t) => hasTy t w
    | _ => false
  | .tEnum variants, .vTupleVariant name vs =>
    match hv : variants.find? (fun p => p.1 = name) with
    | some (_, .tupleV ts) => hasTyZip ts vs
    | _ => false
  | .tEnum variants, .vStructVariant name fs =>
    match hv : variants.find? (fun p => p.1 = name) with
    | some (_, .structV fields) =>
      hasTyFields fields fs && decide ((fs.map Prod.fst).Nodup)
    | _ => false
  | _, _ => false
termination_by (sizeOf ty, sizeOf v)
decreasing_by
  all_goals
    try (simp; omega)
  all_goals
    (apply Prod.Lex.left
     have hsz := List.sizeOf_lt_of_mem (List.mem_of_find?_eq_some hv)
     simp at hsz ⊢
     omega)

/-- All sequence elements typed at the element type. -/
def hasTyList (t : Ty) (vs : List AppVal) : Bool :=
  match vs with
  | [] => true
  | x :: rest => hasTy t x && hasTyList t rest
termination_by (sizeOf t, sizeOf vs)
decreasing_by all_goals (first | (simp; omega) | simp)

/-- Tuple elements typed positionally, lengths equal. -/
def hasTyZip (ts : List Ty) (vs : List AppVal) : Bool :=
  match ts, vs with
  | [], [] => true
  | t :: trest, x :: vrest => hasTy t x && hasTyZip trest vrest
  | _, _ => false
termination_by (sizeOf ts, sizeOf vs)
decreasing_by all_goals (first | (simp; omega) | simp)

/-- Struct fields: same names in the same order, each value typed. -/
def hasTyFields (fields : List (String × Ty)) (fs : List (String × AppVal)) : Bool :=
  match fields, fs with
  | [], [] => true
  | (k1, t) :: frest, (k2, w) :: grest =>
    decide (k1 = k2) && hasTy t w && hasTyFields frest grest
  | _, _ => false
termination_by (sizeOf fields, sizeOf fs)
decreasing_by all_goals (first | (simp; omega) | simp)

end

mutual

/-- Well-formedness of a `value.rs` value: payloads representable by the
Rust types (`i32` range, `u8` bytes, canonical float and datetime
text). -/
def Value.wf : Value → Bool
  | .int n => decide (-2147483648 ≤ n ∧ n ≤ 2147483647)
  | .bool _ => true
  | .str _ => true
  | .double f => f64LitShape f.repr && (f.isNaN == decide (f.repr = "NaN"))
  | .dateTime dt => rfc3339Shape dt.repr
  | .base64 bs => bs.all (fun b => b < 256)
  | .array vs => wfList vs
  | .struct ps => wfPairs ps
termination_by v => sizeOf v
decreasing_by all_goals (first | (simp; omega) | simp)

/-- Well-formedness of every element. -/
def wfList : List Value → Bool
  | [] => true
  | v :: vs => v.wf && wfList vs
termination_by vs => sizeOf vs
decreasing_by all_goals (first | (simp; omega) | simp)

/-- Well-formedness of every member value. -/
def wfPairs : List (String × Value) → Bool
  | [] => true
  | (_, v) :: ps => v.wf && wfPairs ps
termination_by ps => sizeOf ps
decreasing_by all_goals (first | (simp; omega) | simp)

end

mutual

/-- No NaN double anywhere in the value: under IEEE equality a NaN does
not equal its decoded copy, so the equational round trip excludes it. -/
def Value.noNaN : Value → Bool
  | .double f => !f.isNaN
  | .array vs => noNaNList vs
  | .struct ps => noNaNPairs ps
  | _ => true
termination_by v => sizeOf v
decreasing_by all_goals (first | (simp; omega) | simp)

/-- No NaN in any element. -/
def noNaNList : List Value → Bool
  | [] => true
  | v :: vs => v.noNaN && noNaNList vs
termination_by vs => sizeOf vs
decreasing_by all_goals (first | (simp; omega) | simp)

/-- No NaN in any member value. -/
def noNaNPairs : List (String × Value) → Bool
  | [] => true
  | (_, v) :: ps => v.noNaN && noNaNPairs ps
termination_by ps => sizeOf ps
decreasing_by all_goals (first | (simp; omega) | simp)

end

/-- `xmlfmt::into_params`: an Array encoding is flattened into the
parameter list, anything else becomes a single parameter. -/
def into_params (v : AppVal) : List XValue :=
  match to_value v with
  | .array ps => ps
  | data => [data]

/-- `xmlfmt::from_params`: exactly one parameter is decoded directly,
any other arity is wrapped back into an Array value. -/
def from_params (ty : Ty) (params : List XValue) : Except String AppVal :=
  match params with
  | [p] => deserialize ty p
  | ps => deserialize ty (.array ps)

/-! ## Lemmas: decimal text round trips -/

theorem decDigit?_digitChar {d : Nat} (h : d < 10) :
    decDigit? (digitChar d) = some d := by
  interval_cases d <;> decide

theorem digitChar_ne_plus {d : Nat} (h : d < 10) : digitChar d ≠ '+' := by
  interval_cases d <;> decide

theorem digitChar_ne_minus {d : Nat} (h : d < 10) : digitChar d ≠ '-' := by
  interval_cases d <;> decide

theorem natDecDigits_lt (n : Nat) : ∀ d ∈ natDecDigits n, d < 10 := by
  induction n using natDecDigits.induct with
  | case1 n h =>
    rw [natDecDigits]
    simp [h]
  | case2 n h ih =>
    rw [natDecDigits, dif_neg h]
    intro d hd
    rcases List.mem_append.mp hd with hmem | hmem
    · exact ih d hmem
    · simp at hmem
      omega

theorem natDecDigits_ne_nil (n : Nat) : natDecDigits n ≠ [] := by
  rw [natDecDigits]
  by_cases h : n < 10 <;> simp [h]

theorem digitsVal_append_one (xs : List Char) (c : Char) :
    digitsVal (xs ++ [c]) =
      match digitsVal xs, decDigit? c with
      | some a, some d => some (a * 10 + d)
      | _, _ => none := by
  simp [digitsVal, List.foldl_append]

theorem digitsVal_natDecChars (n : Nat) : digitsVal (natDecChars n) = some n := by
  induction n using natDecDigits.induct with
  | case1 n h =>
    rw [natDecChars, natDecDigits, dif_pos h]
    simp [digitsVal, decDigit?_digitChar h]
  | case2 n h ih =>
    rw [natDecChars, natDecDigits, dif_neg h]
    simp only [List.map_append, List.map_cons, List.map_nil]
    rw [digitsVal_append_one]
    rw [show (natDecDigits (n / 10)).map digitChar = natDecChars (n / 10) from rfl]
    rw [ih, decDigit?_digitChar (by omega)]
    simp only []
    congr 1
    omega

theorem natDecChars_shape (n : Nat) :
    ∃ d ds, natDecChars n = digitChar d :: ds ∧ d < 10 := by
  rcases hsh : natDecDigits n with _ | ⟨d, ds⟩
  · exact absurd hsh (natDecDigits_ne_nil n)
  · refine ⟨d, ds.map digitChar, ?_, ?_⟩
    · rw [natDecChars, hsh]; rfl
    · exact natDecDigits_lt n d (by rw [hsh]; simp)

theorem parseUnsignedCore_natDecChars {max n : Nat} (h : n ≤ max) :
    parseUnsignedCore max (natDecChars n) = some n := by
  rcases natDecChars_shape n with ⟨d, ds, hsh, hd⟩
  rw [parseUnsignedCore]
  rw [hsh]
  simp only [List.isEmpty_cons, if_false, Bool.false_eq_true]
  rw [← hsh, digitsVal_natDecChars]
  simp [h]

theorem parseUnsigned_natDecString {max n : Nat} (h : n ≤ max) :
    parseUnsigned max (natDecString n) = some n := by
  rcases natDecChars_shape n with ⟨d, ds, hsh, hd⟩
  rw [parseUnsigned, natDecString]
  show parseUnsignedL max (natDecChars n) = some n
  rw [hsh, parseUnsignedL]
  rw [if_neg (by exact fun hc => digitChar_ne_plus hd hc)]
  rw [← hsh, parseUnsignedCore_natDecChars h]

theorem parseSignedCore_natDecChars {lo hi : Int} {n : Nat}
    (h1 : lo ≤ (n : Int)) (h2 : (n : Int) ≤ hi) :
    parseSignedCore lo hi false (natDecChars n) = some (n : Int) := by
  rcases natDecChars_shape n with ⟨d, ds, hsh, hd⟩
  rw [parseSignedCore, hsh]
  simp only [List.isEmpty_cons, if_false, Bool.false_eq_true]
  rw [← hsh, digitsVal_natDecChars]
  simp [h1, h2]

theorem parseSignedCore_neg_natDecChars {lo hi : Int} {n : Nat}
    (h1 : lo ≤ -(n : Int)) (h2 : -(n : Int) ≤ hi) :
    parseSignedCore lo hi true (natDecChars n) = some (-(n : Int)) := by
  rcases natDecChars_shape n with ⟨d, ds, hsh, hd⟩
  rw [parseSignedCore, hsh]
  simp only [List.isEmpty_cons, if_false, Bool.false_eq_true]
  rw [← hsh, digitsVal_natDecChars]
  simp [h1, h2]

theorem parseSigned_intDecString {lo hi n : Int} (h1 : lo ≤ n) (h2 : n ≤ hi) :
    parseSigned lo hi (intDecString n) = some n := by
  by_cases hn : n < 0
  · rw [intDecString, if_pos hn, parseSigned]
    show parseSignedL lo hi ('-' :: natDecChars n.natAbs) = some n
    rw [parseSignedL]
    rw [if_neg (by decide), if_pos rfl]
    have habs : -(n.natAbs : Int) = n := by omega
    rw [parseSignedCore_neg_natDecChars (by omega) (by omega), habs]
  · rw [intDecString, if_neg hn, natDecString, parseSigned]
    show parseSignedL lo hi (natDecChars n.toNat) = some n
    rcases natDecChars_shape n.toNat with ⟨d, ds, hsh, hd⟩
    rw [hsh, parseSignedL]
    rw [if_neg (by exact fun hc => digitChar_ne_plus hd hc)]
    rw [if_neg (by exact fun hc => digitChar_ne_minus hd hc)]
    have htn : ((n.toNat : Int)) = n := by omega
    rw [← hsh, parseSignedCore_natDecChars (by omega) (by omega), htn]

theorem parseI32_intDecString {n : Int}
    (h1 : -2147483648 ≤ n) (h2 : n ≤ 2147483647) :
    parseI32 (intDecString n) = some n :=
  parseSigned_intDecString h1 h2

theorem intDecString_ne_empty (n : Int) : intDecString n ≠ "" := by
  rw [intDecString]
  by_cases hn : n < 0
  · simp only [hn, if_pos]
    intro hc
    exact absurd (congrArg String.data hc) (by simp)
  · simp only [hn, if_neg, Bool.false_eq_true, natDecString]
    intro hc
    have hd := congrArg String.data hc
    simp at hd
    rcases natDecChars_shape n.toNat with ⟨d, ds, hsh, _⟩
    rw [hsh] at hd
    exact absurd hd (by simp)

/-! ## Lemmas: float, datetime and base64 text round trips -/

theorem f64Parse_wf {f : F64} (h : F64.Wf f) : f64Parse f.repr = some f := by
  rcases h with ⟨h1, h2⟩
  rw [f64Parse, if_pos h1]
  cases f with
  | mk r b =>
    simp only at h2
    rw [h2]

theorem f64LitShape_ne_empty {s : String} (h : f64LitShape s = true) : s ≠ "" := by
  intro hc
  subst hc
  exact absurd h (by decide)

theorem dtParse_wf {dt : DT} (h : DT.Wf dt) : dtParse dt.repr = some dt := by
  rw [dtParse, if_pos (show rfc3339Shape dt.repr = true from h)]

theorem rfc3339Shape_ne_empty {s : String} (h : rfc3339Shape s = true) : s ≠ "" := by
  intro hc
  subst hc
  exact absurd h (by decide)

theorem b64IndexChar : ∀ n, n < 64 → b64Index (b64Char n) = some n := by decide

theorem b64Char_ne_pad : ∀ n, n < 64 → b64Char n ≠ '=' := by decide

theorem b64Encode_ne_nil : ∀ {bs : List Nat}, bs ≠ [] → b64Encode bs ≠ [] := by
  intro bs h
  match bs with
  | [] => exact absurd rfl h
  | [a] => simp [b64Encode]
  | [a, b] => simp [b64Encode]
  | a :: b :: c :: rest => simp [b64Encode]

theorem b64Decode_b64Encode :
    ∀ (bs : List Nat), (∀ b ∈ bs, b < 256) → b64Decode (b64Encode bs) = some bs := by
  intro bs
  induction bs using b64Encode.induct with
  | case1 => intro h; rfl
  | case2 a =>
    intro h
    have ha : a < 256 := h a (by simp)
    have h1 : b64Index (b64Char (a / 4)) = some (a / 4) := b64IndexChar _ (by omega)
    have h2 : b64Index (b64Char (a % 4 * 16)) = some (a % 4 * 16) := b64IndexChar _ (by omega)
    have hval : a / 4 * 4 + a % 4 * 16 / 16 = a := by omega
    have hmod : a % 4 * 16 % 16 = 0 := by omega
    simp [b64Encode, b64Decode, b64DecodeLast, h1, h2, hmod, hval]
    all_goals omega
  | case3 a b =>
    intro h
    have ha : a < 256 := h a (by simp)
    have hb : b < 256 := h b (by simp)
    have h1 : b64Index (b64Char (a / 4)) = some (a / 4) := b64IndexChar _ (by omega)
    have h2 : b64Index (b64Char (a % 4 * 16 + b / 16)) = some (a % 4 * 16 + b / 16) :=
      b64IndexChar _ (by omega)
    have h3 : b64Index (b64Char (b % 16 * 4)) = some (b % 16 * 4) := b64IndexChar _ (by omega)
    have hne : b64Char (b % 16 * 4) ≠ '=' := b64Char_ne_pad _ (by omega)
    have hva : a / 4 * 4 + (a % 4 * 16 + b / 16) / 16 = a := by omega
    have hvb : (a % 4 * 16 + b / 16) % 16 * 16 + b % 16 * 4 / 4 = b := by omega
    have hmod : b % 16 * 4 % 4 = 0 := by omega
    simp [b64Encode, b64Decode, b64DecodeLast, h1, h2, h3, hne, hmod, hva, hvb]
    all_goals omega
  | case4 a b c rest ih =>
    intro h
    have ha : a < 256 := h a (by simp)
    have hb : b < 256 := h b (by simp)
    have hc : c < 256 := h c (by simp)
    have h1 : b64Index (b64Char (a / 4)) = some (a / 4) := b64IndexChar _ (by omega)
    have h2 : b64Index (b64Char (a % 4 * 16 + b / 16)) = some (a % 4 * 16 + b / 16) :=
      b64IndexChar _ (by omega)
    have h3 : b64Index (b64Char (b % 16 * 4 + c / 64)) = some (b % 16 * 4 + c / 64) :=
      b64IndexChar _ (by omega)
    have h4 : b64Index (b64Char (c % 64)) = some (c % 64) := b64IndexChar _ (by omega)
    have hva : a / 4 * 4 + (a % 4 * 16 + b / 16) / 16 = a := by omega
    have hvb : (a % 4 * 16 + b / 16) % 16 * 16 + (b % 16 * 4 + c / 64) / 4 = b := by omega
    have hvc : (b % 16 * 4 + c / 64) % 4 * 64 + c % 64 = c := by omega
    have ihr : b64Decode (b64Encode rest) = some rest := by
      apply ih
      intro x hx
      exact h x (by simp [hx])
    by_cases hrest : rest = []
    · subst hrest
      have hne3 : b64Char (b % 16 * 4 + c / 64) ≠ '=' := b64Char_ne_pad _ (by omega)
      have hne4 : b64Char (c % 64) ≠ '=' := b64Char_ne_pad _ (by omega)
      simp [b64Encode, b64Decode, b64DecodeLast, h1, h2, h3, h4, hne3, hne4, hva, hvb, hvc]
      all_goals omega
    · have hemp : (b64Encode rest).isEmpty = false := by
        rcases hen : b64Encode rest with _ | ⟨x, xs⟩
        · exact absurd hen (b64Encode_ne_nil hrest)
        · rfl
      rw [b64Encode]
      rw [b64Decode]
      rw [hemp]
      simp [h1, h2, h3, h4, ihr, hva, hvb, hvc]
      all_goals omega

/-! ## Lemmas: node-level reductions -/

theorem literal_textContent (t s : String) :
    literal_text_in_node (XmlNode.element t (textContent s)) = s := by
  by_cases hs : s = ""
  · subst hs
    rfl
  · rw [textContent, if_neg hs]
    rfl

theorem read_xml_not_value {n : XmlNode} (h : n.tagOf ≠ "value") :
    Value.read_xml n = .error "expected value tag" := by
  rw [Value.read_xml, if_pos h]

theorem mem_writeMembers_tag {ps : List (String × Value)} {c : XmlNode}
    (hc : c ∈ writeMembers ps) : c.tagOf = "member" := by
  induction ps with
  | nil => rw [writeMembers] at hc; cases hc
  | cons p rest ih =>
    rcases p with ⟨k, v⟩
    rw [writeMembers] at hc
    rcases List.mem_cons.mp hc with h | h
    · subst h; rfl
    · exact ih h

theorem filter_member_writeMembers (ps : List (String × Value)) :
    (writeMembers ps).filter (fun c => c.tagOf = "member") = writeMembers ps := by
  apply List.filter_eq_self.mpr
  intro c hc
  simp [mem_writeMembers_tag hc]

/-! ## The codec round trip -/

mutual

theorem read_write (v : Value) (h : Value.wf v = true) :
    Value.read_xml v.write_xml = .ok v := by
  cases v with
  | int n =>
    have hr : -2147483648 ≤ n ∧ n ≤ 2147483647 := by
      have := h
      rw [Value.wf] at this
      exact of_decide_eq_true this
    rw [Value.write_xml, Value.read_xml]
    simp [XmlNode.tagOf, XmlNode.childrenOf, XmlNode.isElem, List.find?, literal_textContent,
      parseI32_intDecString hr.1 hr.2]
  | bool b =>
    have h1 : parseU8 "1" = some 1 := by decide
    have h0 : parseU8 "0" = some 0 := by decide
    have ht1 : literal_text_in_node (XmlNode.element "boolean" [XmlNode.text "1"]) = "1" := rfl
    have ht0 : literal_text_in_node (XmlNode.element "boolean" [XmlNode.text "0"]) = "0" := rfl
    rw [Value.write_xml, Value.read_xml]
    cases b <;>
      simp [XmlNode.tagOf, XmlNode.childrenOf, XmlNode.isElem, List.find?, h1, h0, ht1, ht0]
  | str s =>
    rw [Value.write_xml, Value.read_xml]
    simp [XmlNode.tagOf, XmlNode.childrenOf, XmlNode.isElem, List.find?, literal_textContent]
  | double f =>
    have hwf : F64.Wf f := by
      rw [Value.wf] at h
      simp at h
      exact ⟨h.1, h.2⟩
    rw [Value.write_xml, Value.read_xml]
    simp [XmlNode.tagOf, XmlNode.childrenOf, XmlNode.isElem, List.find?, literal_textContent,
      f64Parse_wf hwf]
  | dateTime dt =>
    have hwf : DT.Wf dt := by
      rw [Value.wf] at h
      exact h
    rw [Value.write_xml, Value.read_xml]
    simp [XmlNode.tagOf, XmlNode.childrenOf, XmlNode.isElem, List.find?, literal_textContent,
      dtParse_wf hwf]
  | base64 bs =>
    have hb : ∀ b ∈ bs, b < 256 := by
      rw [Value.wf] at h
      intro b hbm
      have := List.all_eq_true.mp h b hbm
      exact of_decide_eq_true this
    rw [Value.write_xml, Value.read_xml]
    simp [XmlNode.tagOf, XmlNode.childrenOf, XmlNode.isElem, List.find?, literal_textContent,
      b64Decode_b64Encode bs hb]
  | array vs =>
    have hl : wfList vs = true := by rw [Value.wf] at h; exact h
    have hdd : decide ("data" = "data") = true := by decide
    rw [Value.write_xml, Value.read_xml]
    simp only [XmlNode.tagOf, XmlNode.childrenOf, XmlNode.isElem, List.find?]
    simp
    split
    · rename_i dataNode heq
      simp at heq
      subst heq
      simp [XmlNode.childrenOf, readValues_writeValues vs hl]
    · rename_i heq
      simp at heq
  | struct ps =>
    have hp : wfPairs ps = true := by rw [Value.wf] at h; exact h
    have hfilter := filter_member_writeMembers ps
    simp only [XmlNode.tagOf] at hfilter
    rw [Value.write_xml, Value.read_xml]
    simp [XmlNode.tagOf, XmlNode.childrenOf, XmlNode.isElem, List.find?, hfilter,
      filter_member_writeMembers, readMembers_writeMembers ps hp]
termination_by sizeOf v
decreasing_by all_goals (subst_vars; first | (simp; omega) | simp)

theorem readValues_writeValues :
    ∀ (vs : List Value), wfList vs = true → readValues (writeValues vs) = vs
  | [], _ => by rw [writeValues, readValues]
  | v :: rest, h => by
    rw [wfList] at h
    rcases Bool.and_eq_true_iff.mp h with ⟨h1, h2⟩
    rw [writeValues, readValues]
    rw [read_write v h1, readValues_writeValues rest h2]
termination_by vs _ => sizeOf vs
decreasing_by all_goals (subst_vars; first | (simp; omega) | simp)

theorem readMembers_writeMembers :
    ∀ (ps : List (String × Value)), wfPairs ps = true → readMembers (writeMembers ps) = ps
  | [], _ => by rw [writeMembers, readMembers]
  | (k, v) :: rest, h => by
    rw [wfPairs] at h
    rcases Bool.and_eq_true_iff.mp h with ⟨h1, h2⟩
    have hnv : Value.read_xml (XmlNode.element "name" (textContent k)) =
        .error "expected value tag" :=
      read_xml_not_value (by simp [XmlNode.tagOf])
    rw [writeMembers, readMembers]
    simp [XmlNode.childrenOf, XmlNode.tagOf, List.find?, readFirstValue, hnv,
      read_write v h1, literal_textContent, readMembers_writeMembers rest h2]
termination_by ps _ => sizeOf ps
decreasing_by all_goals (subst_vars; first | (simp; omega) | simp)

end

/-! ## Envelope round trips -/

theorem filter_param_map (ps : List Value) :
    (ps.map (fun p => XmlNode.element "param" [p.write_xml])).filter
      (fun c => c.tagOf = "param") =
      ps.map (fun p => XmlNode.element "param" [p.write_xml]) := by
  apply List.filter_eq_self.mpr
  intro c hc
  rcases List.mem_map.mp hc with ⟨p, hp, hpc⟩
  subst hpc
  simp [XmlNode.tagOf]

theorem readFirst_param_map (ps : List Value) (h : ps.all Value.wf = true) :
    (ps.map (fun p => XmlNode.element "param" [p.write_xml])).filterMap
      (fun n => readFirstValue n.childrenOf) = ps := by
  induction ps with
  | nil => rfl
  | cons p rest ih =>
    rw [List.all_cons] at h
    rcases Bool.and_eq_true_iff.mp h with ⟨h1, h2⟩
    have hfv : readFirstValue (XmlNode.element "param" [p.write_xml]).childrenOf = some p := by
      show readFirstValue [p.write_xml] = some p
      rw [readFirstValue, read_write p h1]
    simp only [List.map_cons, List.filterMap_cons, hfv]
    rw [ih h2]

theorem filterMap_param_nodes (ps : List Value) (h : ps.all Value.wf = true) :
    ((ps.map (fun p => XmlNode.element "param" [p.write_xml])).filter
      (fun c => c.tagOf = "param")).filterMap
        (fun paramNode => readFirstValue paramNode.childrenOf) = ps := by
  rw [filter_param_map, readFirst_param_map ps h]

theorem request_read_write (r : Request) (h : r.params.all Value.wf = true) :
    Request.read_xml (Request.write_xml r) = .ok r := by
  rcases r with ⟨name, params⟩
  rw [Request.write_xml, Request.read_xml]
  show Except.ok (Request.mk
      (literal_text_in_node (XmlNode.element "methodName" (textContent name)))
      (read_params (XmlNode.element "methodCall"
        (XmlNode.element "methodName" (textContent name) ::
          [XmlNode.element "params"
            (params.map (fun p => XmlNode.element "param" [p.write_xml]))])))) =
    Except.ok (Request.mk name params)
  rw [literal_textContent]
  have hp : read_params (XmlNode.element "methodCall"
      (XmlNode.element "methodName" (textContent name) ::
        [XmlNode.element "params"
          (params.map (fun p => XmlNode.element "param" [p.write_xml]))])) = params := by
    rw [read_params]
    show ((params.map (fun p => XmlNode.element "param" [p.write_xml])).filter
      (fun c => c.tagOf = "param")).filterMap
        (fun paramNode => readFirstValue paramNode.childrenOf) = params
    exact filterMap_param_nodes params h
  rw [hp]

theorem response_read_write_success (params : List Value)
    (h : params.all Value.wf = true) :
    Response.read_xml (Response.write_xml (.success params)) = .ok (.success params) := by
  rw [Response.write_xml, Response.read_xml]
  show Except.ok (Response.success (read_params (XmlNode.element "methodResponse"
      [XmlNode.element "params"
        (params.map (fun p => XmlNode.element "param" [p.write_xml]))]))) =
    Except.ok (Response.success params)
  have hp : read_params (XmlNode.element "methodResponse"
      [XmlNode.element "params"
        (params.map (fun p => XmlNode.element "param" [p.write_xml]))]) = params := by
    rw [read_params]
    show ((params.map (fun p => XmlNode.element "param" [p.write_xml])).filter
      (fun c => c.tagOf = "param")).filterMap
        (fun paramNode => readFirstValue paramNode.childrenOf) = params
    exact filterMap_param_nodes params h
  rw [hp]

theorem response_read_write_failure (code : Int) (message : String)
    (h1 : -2147483648 ≤ code) (h2 : code ≤ 2147483647) :
    Response.read_xml (Response.write_xml (.failure code message)) =
      .ok (.failure code message) := by
  have hwf : Value.wf (.struct [("faultCode", Value.int code),
      ("faultString", Value.str message)]) = true := by
    rw [Value.wf, wfPairs, wfPairs, wfPairs]
    simp [Value.wf, h1, h2]
  have hread := read_write _ hwf
  have hfv : readFirstValue [(Value.struct [("faultCode", Value.int code),
      ("faultString", Value.str message)]).write_xml] =
      some (Value.struct [("faultCode", Value.int code),
        ("faultString", Value.str message)]) := by
    rw [readFirstValue, hread]
  have hd1 : decide ("methodResponse" = "methodResponse") = true := by decide
  have hd2 : decide ("fault" = "fault") = true := by decide
  rw [Response.write_xml, Response.read_xml]
  simp only [List.find?, XmlNode.tagOf, hd1, hd2, XmlNode.childrenOf, eq_self_iff_true,
    decide_True]
  rw [hfv]
  simp [hmOfList, hmInsert, hmLookup, List.find?]

/-! ## HashMap-model lemmas -/

theorem hmLookup_hmInsert {α : Type} (m : List (String × α)) (k0 k : String) (v : α) :
    hmLookup (hmInsert m k0 v) k =
      if k0 = k then some v else hmLookup m k := by
  induction m with
  | nil =>
    rw [hmInsert]
    by_cases hk : k0 = k <;> simp [hmLookup, List.find?, hk]
  | cons p rest ih =>
    rcases p with ⟨k1, v1⟩
    rw [hmInsert]
    by_cases hrep : k1 = k0
    · rw [if_pos hrep]
      by_cases hk : k1 = k
      · have hk0 : k0 = k := by rw [← hrep]; exact hk
        simp [hmLookup, List.find?, hk, hk0]
      · have hk0 : ¬ k0 = k := by rw [← hrep]; exact hk
        simp [hmLookup, List.find?, hk, hk0]
    · rw [if_neg hrep]
      by_cases hk : k1 = k
      · have hk0 : ¬ k0 = k := fun hc => hrep (by rw [hk, hc])
        simp [hmLookup, List.find?, hk, hk0]
      · have hstep : hmLookup ((k1, v1) :: hmInsert rest k0 v) k =
            hmLookup (hmInsert rest k0 v) k := by
          simp [hmLookup, List.find?, hk]
        rw [hstep, ih]
        by_cases hc : k0 = k
        · simp [hc]
        · simp [hc, hmLookup, List.find?, hk]

theorem lookupLast_cons {α : Type} (p : String × α) (rest : List (String × α)) (k : String) :
    lookupLast (p :: rest) k =
      match lookupLast rest k with
      | some v => some v
      | none => if p.1 = k then some p.2 else none := by
  rw [lookupLast, lookupLast]
  rw [List.reverse_cons, List.find?_append]
  rcases hfind : List.find? (fun q => q.1 = k) rest.reverse with _ | q
  · rw [hfind]
    by_cases hk : p.1 = k
    · simp [List.find?, hk, Option.or]
    · simp [List.find?, hk, Option.or]
  · rw [hfind]
    simp [Option.or]

theorem hmLookup_foldl {α : Type} (ps : List (String × α)) (k : String) :
    ∀ acc, hmLookup (ps.foldl (fun m p => hmInsert m p.1 p.2) acc) k =
      match lookupLast ps k with
      | some v => some v
      | none => hmLookup acc k := by
  induction ps with
  | nil =>
    intro acc
    rw [lookupLast]
    simp
  | cons p rest ih =>
    intro acc
    rw [List.foldl_cons, ih, lookupLast_cons]
    rcases hlast : lookupLast rest k with _ | v
    · simp only []
      rw [hmLookup_hmInsert]
      by_cases hk : p.1 = k <;> simp [hk]
    · simp only []

theorem hmLookup_hmOfList {α : Type} (ps : List (String × α)) (k : String) :
    hmLookup (hmOfList ps) k = lookupLast ps k := by
  rw [hmOfList, hmLookup_foldl]
  rcases hlast : lookupLast ps k with _ | v
  · simp [hmLookup, List.find?]
  · simp

/-! ## Serde-bridge support lemmas -/

theorem to_value_list_length (vs : List AppVal) :
    (to_value_list vs).length = vs.length := by
  induction vs with
  | nil => rw [to_value_list]; rfl
  | cons v rest ih => rw [to_value_list]; simp [ih]

theorem hasTyZip_length :
    ∀ {ts : List Ty} {vs : List AppVal}, hasTyZip ts vs = true → vs.length = ts.length
  | [], [], _ => rfl
  | [], v :: rest, h => by simp [hasTyZip] at h
  | t :: trest, [], h => by simp [hasTyZip] at h
  | t :: trest, v :: rest, h => by
    rw [hasTyZip] at h
    rcases Bool.and_eq_true_iff.mp h with ⟨h1, h2⟩
    simp [hasTyZip_length h2]

theorem keys_to_value_fields (fs : List (String × AppVal)) :
    (to_value_fields fs).map Prod.fst = fs.map Prod.fst := by
  induction fs with
  | nil => rw [to_value_fields]; rfl
  | cons p rest ih =>
    rcases p with ⟨k, v⟩
    rw [to_value_fields]
    simp [ih]

theorem hmInsert_append {α : Type} {m : List (String × α)} {k : String} (v : α)
    (h : ∀ p ∈ m, p.1 ≠ k) : hmInsert m k v = m ++ [(k, v)] := by
  induction m with
  | nil => rfl
  | cons p rest ih =>
    rcases p with ⟨k1, v1⟩
    rw [hmInsert]
    have hk1 : k1 ≠ k := h (k1, v1) (by simp)
    rw [if_neg hk1]
    rw [ih (fun q hq => h q (by simp [hq]))]
    rfl

theorem hmOfList_foldl_nodup {α : Type} :
    ∀ (ps acc : List (String × α)),
      ((acc ++ ps).map Prod.fst).Nodup →
      ps.foldl (fun m p => hmInsert m p.1 p.2) acc = acc ++ ps := by
  intro ps
  induction ps with
  | nil => intro acc h; simp
  | cons p rest ih =>
    intro acc h
    rcases p with ⟨k, v⟩
    rw [List.foldl_cons]
    have hnotin : ∀ q ∈ acc, q.1 ≠ k := by
      intro q hq hqk
      rw [List.map_append] at h
      rcases List.nodup_append.mp h with ⟨ha, hb, hd⟩
      have hqm : q.1 ∈ acc.map Prod.fst := List.mem_map_of_mem Prod.fst hq
      have hkm : q.1 ∈ ((k, v) :: rest).map Prod.fst := by simp [hqk]
      exact hd hqm hkm
    rw [hmInsert_append v hnotin]
    have hre : (acc ++ [(k, v)]) ++ rest = acc ++ (k, v) :: rest := by simp
    rw [ih (acc ++ [(k, v)]) (by rw [hre]; exact h)]
    rw [hre]

theorem hmOfList_nodup {α : Type} (ps : List (String × α))
    (h : (ps.map Prod.fst).Nodup) : hmOfList ps = ps := by
  have := hmOfList_foldl_nodup ps [] (by simpa using h)
  simpa [hmOfList] using this

theorem hmLookup_cons_self {α : Type} (k : String) (x : α) (ms : List (String × α)) :
    hmLookup ((k, x) :: ms) k = some x := by
  simp [hmLookup, List.find?]

theorem hmLookup_cons_ne {α : Type} {k1 k : String} (x : α) (ms : List (String × α))
    (h : k1 ≠ k) : hmLookup ((k1, x) :: ms) k = hmLookup ms k := by
  simp [hmLookup, List.find?, h]

theorem deserializeFields_skip (k : String) (x : XValue) :
    ∀ (fields : List (String × Ty)) (ms : List (String × XValue)),
      (∀ p ∈ fields, p.1 ≠ k) →
      deserializeFields fields ((k, x) :: ms) = deserializeFields fields ms := by
  intro fields
  induction fields with
  | nil => intro ms h; rw [deserializeFields, deserializeFields]
  | cons f frest ih =>
    intro ms h
    rcases f with ⟨k1, t⟩
    have hk1 : k1 ≠ k := h (k1, t) (by simp)
    rw [deserializeFields, deserializeFields]
    rw [hmLookup_cons_ne x ms (fun hc => hk1 hc.symm)]
    rw [ih ms (fun q hq => h q (by simp [hq]))]


theorem hasTyFields_keys :
    ∀ {decl : List (String × Ty)} {fs : List (String × AppVal)},
      hasTyFields decl fs = true → decl.map Prod.fst = fs.map Prod.fst
  | [], [], _ => rfl
  | [], p :: rest, h => by simp [hasTyFields] at h
  | p :: rest, [], h => by simp [hasTyFields] at h
  | (k1, t) :: drest, (k2, w) :: frest, h => by
    rw [hasTyFields] at h
    rcases Bool.and_eq_true_iff.mp h with ⟨h12, h3⟩
    rcases Bool.and_eq_true_iff.mp h12 with ⟨h1, h2⟩
    have hk : k1 = k2 := of_decide_eq_true h1
    simp [hk, hasTyFields_keys h3]

theorem exceptMap_ok {ε α β : Type} (f : α → β) (x : α) :
    Except.map f (Except.ok x : Except ε α) = .ok (f x) := rfl

/-! ## The serde bridge round trip -/

mutual

theorem des_ser (ty : Ty) (v : AppVal) (h : hasTy ty v = true) :
    deserialize ty (to_value v) = .ok v := by
  cases v with
  | vBool b =>
    cases ty <;> simp only [hasTy] at h <;> try exact Bool.noConfusion h
    simp [to_value, deserialize, exceptMap_ok]
  | vI8 n =>
    cases ty <;> simp only [hasTy] at h <;> try exact Bool.noConfusion h
    have hr := of_decide_eq_true h
    simp [to_value, deserialize, exceptMap_ok, handle_integer_signed]
    omega
  | vI16 n =>
    cases ty <;> simp only [hasTy] at h <;> try exact Bool.noConfusion h
    have hr := of_decide_eq_true h
    simp [to_value, deserialize, exceptMap_ok, handle_integer_signed]
    omega
  | vI32 n =>
    cases ty <;> simp only [hasTy] at h <;> try exact Bool.noConfusion h
    have hr := of_decide_eq_true h
    simp [to_value, deserialize, exceptMap_ok, handle_integer_signed]
    omega
  | vI64 n =>
    cases ty <;> simp only [hasTy] at h <;> try exact Bool.noConfusion h
    have hr := of_decide_eq_true h
    have hp : parseSigned (-(9223372036854775808 : Int)) 9223372036854775807
        (intDecString n) = some n := parseSigned_intDecString hr.1 hr.2
    simp [to_value, deserialize, exceptMap_ok, handle_integer_i64, hp]
  | vU8 n =>
    cases ty <;> simp only [hasTy] at h <;> try exact Bool.noConfusion h
    have hr := of_decide_eq_true h
    simp [to_value, deserialize, exceptMap_ok, handle_integer_unsigned]
    omega
  | vU16 n =>
    cases ty <;> simp only [hasTy] at h <;> try exact Bool.noConfusion h
    have hr := of_decide_eq_true h
    simp [to_value, deserialize, exceptMap_ok, handle_integer_unsigned]
    omega
  | vU32 n =>
    cases ty <;> simp only [hasTy] at h <;> try exact Bool.noConfusion h
    have hr := of_decide_eq_true h
    have hp : parseUnsigned 4294967295 (natDecString n) = some n :=
      parseUnsigned_natDecString hr
    simp [to_value, deserialize, exceptMap_ok, handle_integer_unsigned, hp]
  | vU64 n =>
    cases ty <;> simp only [hasTy] at h <;> try exact Bool.noConfusion h
    have hr := of_decide_eq_true h
    have hp : parseUnsigned 18446744073709551615 (natDecString n) = some n :=
      parseUnsigned_natDecString hr
    simp [to_value, deserialize, exceptMap_ok, handle_integer_unsigned, hp]
  | vF64 f =>
    cases ty <;> simp only [hasTy] at h <;> try exact Bool.noConfusion h
    simp [to_value, deserialize, exceptMap_ok]
  | vChar c =>
    cases ty <;> simp only [hasTy] at h <;> try exact Bool.noConfusion h
    have h1 : utf8Len (String.mk [c]) = 1 := by
      have hc := of_decide_eq_true h
      simp [utf8Len]
      omega
    simp [to_value, deserialize, exceptMap_ok, h1]
  | vStr str =>
    cases ty <;> simp only [hasTy] at h <;> try exact Bool.noConfusion h
    simp [to_value, deserialize, exceptMap_ok]
  | vBytes bs =>
    cases ty <;> simp only [hasTy] at h <;> try exact Bool.noConfusion h
    simp [to_value, deserialize, exceptMap_ok]
  | vNone =>
    cases ty <;> simp only [hasTy] at h <;> try exact Bool.noConfusion h
    simp [to_value, deserialize, exceptMap_ok]
  | vSome w =>
    cases ty <;> simp only [hasTy] at h <;> try exact Bool.noConfusion h
    rename_i t
    simp [to_value, deserialize, exceptMap_ok, des_ser t w h]
  | vUnit =>
    cases ty <;> simp only [hasTy] at h <;> try exact Bool.noConfusion h
    simp [to_value, deserialize, exceptMap_ok]
  | vNewtype w =>
    cases ty <;> simp only [hasTy] at h <;> try exact Bool.noConfusion h
    rename_i t
    simp [to_value, deserialize, exceptMap_ok, des_ser t w h]
  | vSeq vs =>
    cases ty <;> simp only [hasTy] at h <;> try exact Bool.noConfusion h
    rename_i t
    simp [to_value, deserialize, exceptMap_ok, desList_serList t vs h]
  | vTuple vs =>
    cases ty <;> simp only [hasTy] at h <;> try exact Bool.noConfusion h
    rename_i ts
    have hlen : (to_value_list vs).length = ts.length := by
      rw [to_value_list_length, hasTyZip_length h]
    simp [to_value, deserialize, exceptMap_ok, hlen, desZip_serZip ts vs h]
  | vStructV fields =>
    cases ty <;> simp only [hasTy] at h <;> try exact Bool.noConfusion h
    rename_i decl
    rcases Bool.and_eq_true_iff.mp h with ⟨h1, h2⟩
    have hnd : ((to_value_fields fields).map Prod.fst).Nodup := by
      rw [keys_to_value_fields]
      exact of_decide_eq_true h2
    have hofl : hmOfList (to_value_fields fields) = to_value_fields fields :=
      hmOfList_nodup _ hnd
    simp [to_value, deserialize, exceptMap_ok, hofl,
      desFields_serFields decl fields h1 (of_decide_eq_true h2)]
  | vUnitVariant name =>
    cases ty <;> simp only [hasTy] at h <;> try exact Bool.noConfusion h
    rename_i variants
    rcases hfind : variants.find? (fun p => p.1 = name) with _ | pr
    · rw [hfind] at h; simp at h
    · rcases pr with ⟨a, vty⟩
      rw [hfind] at h
      cases vty with
      | unitV =>
        rw [to_value]
        rw [deserialize]
        split <;> rename_i heq <;> rw [hfind] at heq <;> try cases heq
        all_goals try rfl
      | newtypeV t => simp at h
      | tupleV ts => simp at h
      | structV fs => simp at h
  | vNewtypeVariant name w =>
    cases ty <;> simp only [hasTy] at h <;> try exact Bool.noConfusion h
    rename_i variants
    rcases hfind : variants.find? (fun p => p.1 = name) with _ | pr
    · rw [hfind] at h; simp at h
    · rcases pr with ⟨a, vty⟩
      rw [hfind] at h
      cases vty with
      | unitV => simp at h
      | newtypeV t =>
        rw [to_value]
        rw [deserialize]
        split <;> rename_i heq <;> rw [hfind] at heq <;> try cases heq
        all_goals (rw [des_ser t w h]; try rfl)
      | tupleV ts => simp at h
      | structV fs => simp at h
  | vTupleVariant name vs =>
    cases ty <;> simp only [hasTy] at h <;> try exact Bool.noConfusion h
    rename_i variants
    rcases hfind : variants.find? (fun p => p.1 = name) with _ | pr
    · rw [hfind] at h; simp at h
    · rcases pr with ⟨a, vty⟩
      rw [hfind] at h
      cases vty with
      | unitV => simp at h
      | newtypeV t => simp at h
      | tupleV ts =>
        have hlen : (to_value_list vs).length = ts.length := by
          rw [to_value_list_length, hasTyZip_length h]
        rw [to_value]
        rw [deserialize]
        split <;> rename_i heq <;> rw [hfind] at heq <;> try cases heq
        all_goals simp [hlen, desZip_serZip ts vs h, exceptMap_ok]
      | structV fs => simp at h
  | vStructVariant name fields =>
    cases ty <;> simp only [hasTy] at h <;> try exact Bool.noConfusion h
    rename_i variants
    rcases hfind : variants.find? (fun p => p.1 = name) with _ | pr
    · rw [hfind] at h; simp at h
    · rcases pr with ⟨a, vty⟩
      rw [hfind] at h
      cases vty with
      | unitV => simp at h
      | newtypeV t => simp at h
      | tupleV ts => simp at h
      | structV decl =>
        rcases Bool.and_eq_true_iff.mp h with ⟨h1, h2⟩
        have hnd : ((to_value_fields fields).map Prod.fst).Nodup := by
          rw [keys_to_value_fields]
          exact of_decide_eq_true h2
        have hofl : hmOfList (to_value_fields fields) = to_value_fields fields :=
          hmOfList_nodup _ hnd
        rw [to_value]
        rw [deserialize]
        split <;> rename_i heq <;> rw [hfind] at heq <;> try cases heq
        all_goals simp [hofl, desFields_serFields decl fields h1 (of_decide_eq_true h2),
          exceptMap_ok]
termination_by sizeOf v
decreasing_by all_goals (subst_vars; first | (simp; omega) | simp)

theorem desList_serList :
    ∀ (t : Ty) (vs : List AppVal), hasTyList t vs = true →
      deserializeList t (to_value_list vs) = .ok vs
  | t, [], _ => by rw [to_value_list, deserializeList]
  | t, v :: rest, h => by
    rw [hasTyList] at h
    rcases Bool.and_eq_true_iff.mp h with ⟨h1, h2⟩
    rw [to_value_list, deserializeList]
    rw [des_ser t v h1, desList_serList t rest h2]
termination_by _ vs _ => sizeOf vs
decreasing_by all_goals (subst_vars; first | (simp; omega) | simp)

theorem desZip_serZip :
    ∀ (ts : List Ty) (vs : List AppVal), hasTyZip ts vs = true →
      deserializeZip ts (to_value_list vs) = .ok vs
  | [], [], _ => by rw [to_value_list, deserializeZip]
  | [], v :: rest, h => by simp [hasTyZip] at h
  | t :: trest, [], h => by simp [hasTyZip] at h
  | t :: trest, v :: rest, h => by
    rw [hasTyZip] at h
    rcases Bool.and_eq_true_iff.mp h with ⟨h1, h2⟩
    rw [to_value_list, deserializeZip]
    rw [des_ser t v h1, desZip_serZip trest rest h2]
termination_by _ vs _ => sizeOf vs
decreasing_by all_goals (subst_vars; first | (simp; omega) | simp)

theorem desFields_serFields :
    ∀ (decl : List (String × Ty)) (fs : List (String × AppVal)),
      hasTyFields decl fs = true → (fs.map Prod.fst).Nodup →
      deserializeFields decl (to_value_fields fs) = .ok fs
  | [], [], _, _ => by rw [to_value_fields, deserializeFields]
  | [], p :: rest, h, _ => by simp [hasTyFields] at h
  | d :: drest, [], h, _ => by simp [hasTyFields] at h
  | (k1, t) :: drest, (k2, w) :: frest, h, hnd => by
    rw [hasTyFields] at h
    rcases Bool.and_eq_true_iff.mp h with ⟨h12, h3⟩
    rcases Bool.and_eq_true_iff.mp h12 with ⟨h1, h2⟩
    have hk : k1 = k2 := of_decide_eq_true h1
    subst hk
    rw [List.map_cons, List.nodup_cons] at hnd
    rcases hnd with ⟨hk2, hndrest⟩
    have hskip : deserializeFields drest ((k1, to_value w) :: to_value_fields frest) =
        deserializeFields drest (to_value_fields frest) := by
      apply deserializeFields_skip
      intro q hq hqk
      have hkeys := hasTyFields_keys h3
      have hmem : q.1 ∈ drest.map Prod.fst := List.mem_map_of_mem Prod.fst hq
      rw [hkeys] at hmem
      rw [hqk] at hmem
      exact hk2 hmem
    rw [to_value_fields, deserializeFields, hmLookup_cons_self]
    simp only [des_ser t w h2, hskip, desFields_serFields drest frest h3 hndrest]
termination_by _ fs _ _ => sizeOf fs
decreasing_by all_goals (subst_vars; first | (simp; omega) | simp)

end


/-! ## Params layer and remaining support -/

theorem from_params_into_params (ty : Ty) (v : AppVal) (h : hasTy ty v = true)
    (hnot : ∀ x : XValue, to_value v ≠ .array [x]) :
    from_params ty (into_params v) = .ok v := by
  have hd := des_ser ty v h
  rcases hv : to_value v with n | b | str | f | dt | bs | ps | ms
  case int =>
    rw [hv] at hd
    simp [into_params, from_params, hv, hd]
  case bool =>
    rw [hv] at hd
    simp [into_params, from_params, hv, hd]
  case str =>
    rw [hv] at hd
    simp [into_params, from_params, hv, hd]
  case double =>
    rw [hv] at hd
    simp [into_params, from_params, hv, hd]
  case dateTime =>
    rw [hv] at hd
    simp [into_params, from_params, hv, hd]
  case base64 =>
    rw [hv] at hd
    simp [into_params, from_params, hv, hd]
  case struct =>
    rw [hv] at hd
    simp [into_params, from_params, hv, hd]
  case array =>
    rw [hv] at hd
    rcases ps with _ | ⟨x, _ | ⟨y, rest⟩⟩
    · simp [into_params, from_params, hv, hd]
    · exact absurd hv (hnot x)
    · simp [into_params, from_params, hv, hd]

theorem readValues_eq_filterMap (cs : List XmlNode) :
    readValues cs = cs.filterMap (fun c => (Value.read_xml c).toOption) := by
  induction cs with
  | nil => rw [readValues]; rfl
  | cons c rest ih =>
    rw [readValues]
    rcases hr : Value.read_xml c with e | v
    · simp [List.filterMap_cons, hr, Except.toOption, ih]
    · simp [List.filterMap_cons, hr, Except.toOption, ih]

theorem natDecString_4200000000 : natDecString 4200000000 = "4200000000" := by
  have hd : natDecDigits 4200000000 = [4, 2, 0, 0, 0, 0, 0, 0, 0, 0] := by
    rw [natDecDigits]
    norm_num
    rw [natDecDigits]
    norm_num
    rw [natDecDigits]
    norm_num
    rw [natDecDigits]
    norm_num
    rw [natDecDigits]
    norm_num
    rw [natDecDigits]
    norm_num
    rw [natDecDigits]
    norm_num
    rw [natDecDigits]
    norm_num
    rw [natDecDigits]
    norm_num
    rw [natDecDigits]
    norm_num
  rw [natDecString, natDecChars, hd]
  decide

theorem intDecString_neg2000000000 : intDecString (-2000000000) = "-2000000000" := by
  have hd : natDecDigits 2000000000 = [2, 0, 0, 0, 0, 0, 0, 0, 0, 0] := by
    rw [natDecDigits]
    norm_num
    rw [natDecDigits]
    norm_num
    rw [natDecDigits]
    norm_num
    rw [natDecDigits]
    norm_num
    rw [natDecDigits]
    norm_num
    rw [natDecDigits]
    norm_num
    rw [natDecDigits]
    norm_num
    rw [natDecDigits]
    norm_num
    rw [natDecDigits]
    norm_num
    rw [natDecDigits]
    norm_num
  rw [intDecString, if_pos (by norm_num)]
  have : ((-2000000000 : Int)).natAbs = 2000000000 := by norm_num
  rw [this, natDecChars, hd]
  decide


/-! ## Claims -/

/-- C1: wire round trip. For every well-formed `Value`, `Request` and
`Response` (success and failure), decoding the encoded node tree yields
the original value; the named `Double` payloads 2.5, -3e12 (Display text
-3000000000000) and inf round-trip by equality, and NaN round-trips to a
value whose is-NaN check holds. -/
theorem c1_roundtrip :
    (∀ v : Value, Value.wf v = true → Value.noNaN v = true →
      Value.read_xml (Value.write_xml v) = .ok v)
    ∧ (∀ r : Request, r.params.all Value.wf = true →
      Request.read_xml (Request.write_xml r) = .ok r)
    ∧ (∀ ps : List Value, ps.all Value.wf = true →
      Response.read_xml (Response.write_xml (.success ps)) = .ok (.success ps))
    ∧ (∀ c m, -2147483648 ≤ c → c ≤ 2147483647 →
      Response.read_xml (Response.write_xml (.failure c m)) = .ok (.failure c m))
    ∧ Value.read_xml (Value.write_xml (.double ⟨"2.5", false⟩)) = .ok (.double ⟨"2.5", false⟩)
    ∧ Value.read_xml (Value.write_xml (.double ⟨"-3000000000000", false⟩)) =
        .ok (.double ⟨"-3000000000000", false⟩)
    ∧ Value.read_xml (Value.write_xml (.double ⟨"inf", false⟩)) = .ok (.double ⟨"inf", false⟩)
    ∧ (Value.read_xml (Value.write_xml (.double ⟨"NaN", true⟩)) = .ok (.double ⟨"NaN", true⟩)
        ∧ F64.isNaN ⟨"NaN", true⟩ = true) := by
  refine ⟨fun v hw _ => read_write v hw, request_read_write, response_read_write_success,
    ?_, ?_, ?_, ?_, ?_, rfl⟩
  · intro c m h1 h2
    exact response_read_write_failure c m h1 h2
  · exact read_write _ (by rw [Value.wf]; decide)
  · exact read_write _ (by rw [Value.wf]; decide)
  · exact read_write _ (by rw [Value.wf]; decide)
  · exact read_write _ (by rw [Value.wf]; decide)

/-- C1 witness: the round trip applied to a concrete value exercising
empty String, empty Array, empty Struct and a negative Int, and to a
concrete request. -/
theorem c1_roundtrip_witness :
    (Value.wf (Value.array [Value.str "", Value.int (-7), Value.struct [],
        Value.array []]) = true)
    ∧ (Value.noNaN (Value.array [Value.str "", Value.int (-7), Value.struct [],
        Value.array []]) = true)
    ∧ Value.read_xml (Value.write_xml (Value.array [Value.str "", Value.int (-7),
        Value.struct [], Value.array []])) =
      .ok (Value.array [Value.str "", Value.int (-7), Value.struct [], Value.array []])
    ∧ Request.read_xml (Request.write_xml ⟨"echo", [Value.int 3]⟩) =
      .ok ⟨"echo", [Value.int 3]⟩ := by
  have hw : Value.wf (Value.array [Value.str "", Value.int (-7), Value.struct [],
      Value.array []]) = true := by
    rw [Value.wf, wfList, wfList, wfList, wfList, wfList]
    rw [Value.wf, Value.wf, Value.wf, Value.wf, wfPairs, wfList]
    decide
  have hn : Value.noNaN (Value.array [Value.str "", Value.int (-7), Value.struct [],
      Value.array []]) = true := by
    simp [Value.noNaN, noNaNList, noNaNPairs]
  have hreq : ([Value.int 3]).all Value.wf = true := by
    rw [List.all_cons, Value.wf]
    decide
  exact ⟨hw, hn, c1_roundtrip.1 _ hw hn, c1_roundtrip.2.1 ⟨"echo", [Value.int 3]⟩ hreq⟩

/-- C2: struct member order and duplicates are preserved in both
directions: the writer emits one member node per pair in list order
without deduplication, and the reader rebuilds exactly the same ordered
pair list, duplicates included. -/
theorem c2_struct_order :
    (∀ ps : List (String × Value), Value.write_xml (.struct ps) =
      XmlNode.element "value" [XmlNode.element "struct" (writeMembers ps)])
    ∧ (∀ ps : List (String × Value), writeMembers ps = ps.map (fun p =>
      XmlNode.element "member" [XmlNode.element "name" (textContent p.1), p.2.write_xml]))
    ∧ (∀ ps : List (String × Value), wfPairs ps = true →
      Value.read_xml (XmlNode.element "value" [XmlNode.element "struct" (writeMembers ps)]) =
        .ok (.struct ps)) := by
  refine ⟨fun ps => by rw [Value.write_xml], ?_, ?_⟩
  · intro ps
    induction ps with
    | nil => rw [writeMembers]; rfl
    | cons p rest ih =>
      rcases p with ⟨k, v⟩
      rw [writeMembers, ih]
      rfl
  · intro ps h
    have := read_write (.struct ps) (by rw [Value.wf]; exact h)
    rw [Value.write_xml] at this
    exact this

/-- C2 witness: a struct with a duplicate member name and an empty
member name round-trips with order and duplicates intact. -/
theorem c2_struct_order_witness :
    wfPairs [("a", Value.int 1), ("a", Value.int 2), ("", Value.str "x")] = true
    ∧ Value.read_xml (XmlNode.element "value" [XmlNode.element "struct"
        (writeMembers [("a", Value.int 1), ("a", Value.int 2), ("", Value.str "x")])]) =
      .ok (.struct [("a", Value.int 1), ("a", Value.int 2), ("", Value.str "x")]) := by
  have hw : wfPairs [("a", Value.int 1), ("a", Value.int 2), ("", Value.str "x")] = true := by
    rw [wfPairs, wfPairs, wfPairs, wfPairs, Value.wf, Value.wf, Value.wf]
    decide
  exact ⟨hw, c2_struct_order.2.2 _ hw⟩

/-- C3 counterexample: a value element with no children at all (the node
tree of both an empty-content element and a self-closing one) does not
decode to the empty String; `Value::read_xml` rejects it. -/
theorem c3_counterexample :
    Value.read_xml (XmlNode.element "value" []) = .error "no valid child element found"
    ∧ Value.read_xml (XmlNode.element "value" []) ≠ .ok (Value.str "") := by
  have h : Value.read_xml (XmlNode.element "value" []) =
      .error "no valid child element found" := by
    rw [Value.read_xml]
    simp [XmlNode.tagOf, XmlNode.childrenOf, List.find?]
  exact ⟨h, by rw [h]; intro hc; cases hc⟩

/-- C3 amended: a value element whose only child is a text node decodes
to the String with that text (so `<value>bar</value>` gives
String "bar"), while a value element with no children at all (both
`<value></value>` and `<value/>` parse to this tree) fails with a decode
error instead of producing String "". -/
theorem c3_untagged :
    (∀ s : String, Value.read_xml (XmlNode.element "value" [XmlNode.text s]) =
      .ok (.str s))
    ∧ Value.read_xml (XmlNode.element "value" []) =
      .error "no valid child element found" := by
  constructor
  · intro s
    rw [Value.read_xml]
    simp [XmlNode.tagOf, XmlNode.childrenOf, List.find?, XmlNode.isElem, XmlNode.isTextNode]
  · rw [Value.read_xml]
    simp [XmlNode.tagOf, XmlNode.childrenOf, List.find?]

/-- C3 witness: the text-child rule applied to the literal text bar. -/
theorem c3_untagged_witness :
    Value.read_xml (XmlNode.element "value" [XmlNode.text "bar"]) = .ok (.str "bar") :=
  c3_untagged.1 "bar"


theorem fault_read_lookup (ps : List (String × Value)) (h : wfPairs ps = true) :
    Response.read_xml [XmlNode.element "methodResponse"
      [XmlNode.element "fault" [(Value.struct ps).write_xml]]] =
      (match lookupLast ps "faultCode" with
       | some (Value.int code) =>
         (match lookupLast ps "faultString" with
          | some (Value.str message) => .ok (.failure code message)
          | _ => .error "fault requires a faultString member with a string type")
       | _ => .error "fault requires a faultCode member with an integer type") := by
  have hread := read_write (.struct ps) (by rw [Value.wf]; exact h)
  have hfv : readFirstValue [(Value.struct ps).write_xml] = some (.struct ps) := by
    rw [readFirstValue, hread]
  rw [Response.read_xml]
  simp only [List.find?, XmlNode.tagOf, eq_self_iff_true, decide_True, XmlNode.childrenOf]
  simp only [hfv]
  simp only [hmLookup_hmOfList]

/-- C4 counterexample: a fault struct with three members (faultCode,
faultString and an extra one) decodes successfully, where the claim
demands a decode error for any shape other than exactly two members. -/
theorem c4_counterexample :
    Response.read_xml [XmlNode.element "methodResponse" [XmlNode.element "fault"
      [(Value.struct [("faultCode", Value.int 4), ("faultString", Value.str "x"),
        ("extra", Value.int 1)]).write_xml]]] = .ok (.failure 4 "x") := by
  have hwf : wfPairs [("faultCode", Value.int 4), ("faultString", Value.str "x"),
      ("extra", Value.int 1)] = true := by
    rw [wfPairs, wfPairs, wfPairs, wfPairs]
    simp [Value.wf]
  exact (fault_read_lookup _ hwf).trans (by rfl)

/-- C4 amended: decoding a fault whose value is a Struct succeeds
exactly when the last faultCode member holds an Int and the last
faultString member holds a String (HashMap folding, last write wins,
extra members ignored), yielding that Failure; a missing or wrongly
typed member is a decode error. -/
theorem c4_fault_shape (ps : List (String × Value)) (h : wfPairs ps = true) :
    Response.read_xml [XmlNode.element "methodResponse"
      [XmlNode.element "fault" [(Value.struct ps).write_xml]]] =
      (match lookupLast ps "faultCode" with
       | some (Value.int code) =>
         (match lookupLast ps "faultString" with
          | some (Value.str message) => .ok (.failure code message)
          | _ => .error "fault requires a faultString member with a string type")
       | _ => .error "fault requires a faultCode member with an integer type") :=
  fault_read_lookup ps h

/-- C4 witness: the specification example fault document decodes to
Failure with code 4 and the message Too many parameters. -/
theorem c4_fault_shape_witness :
    wfPairs [("faultCode", Value.int 4),
      ("faultString", Value.str "Too many parameters.")] = true
    ∧ Response.read_xml [XmlNode.element "methodResponse"
        [XmlNode.element "fault" [(Value.struct [("faultCode", Value.int 4),
          ("faultString", Value.str "Too many parameters.")]).write_xml]]] =
      .ok (.failure 4 "Too many parameters.") := by
  have hwf : wfPairs [("faultCode", Value.int 4),
      ("faultString", Value.str "Too many parameters.")] = true := by
    rw [wfPairs, wfPairs, wfPairs, Value.wf, Value.wf]
    decide
  exact ⟨hwf, (c4_fault_shape _ hwf).trans (by rfl)⟩

/-- C5 counterexample: a one-element Vec (a serializable value) does not
survive the params round trip: its encoding Array([Int 5]) is flattened
to a single param, and from_params then decodes the lone Int against the
sequence target and fails. -/
theorem c5_counterexample :
    from_params (Ty.tSeq Ty.tI32) (into_params (AppVal.vSeq [AppVal.vI32 5])) =
      .error "invalid type for sequence"
    ∧ from_params (Ty.tSeq Ty.tI32) (into_params (AppVal.vSeq [AppVal.vI32 5])) ≠
      .ok (AppVal.vSeq [AppVal.vI32 5]) := by
  have hv : to_value (AppVal.vSeq [AppVal.vI32 5]) = .array [.int 5] := by
    rw [to_value, to_value_list, to_value, to_value_list]
  have h1 : from_params (Ty.tSeq Ty.tI32) (into_params (AppVal.vSeq [AppVal.vI32 5])) =
      .error "invalid type for sequence" := by
    rw [into_params]
    rw [hv]
    rw [from_params]
    simp [deserialize]
  exact ⟨h1, by rw [h1]; intro hc; cases hc⟩

/-- C5 amended: into_params flattens an Array encoding into the
parameter list and wraps any other encoding as a single parameter;
from_params decodes a single parameter directly and wraps any other
arity back into an Array.  The round trip from_params after into_params
recovers every value that is well typed in the strict sense of hasTy
(beyond Rust typing: chars of one UTF-8 byte, non-NaN floats) and whose
encoding is not a one-element Array.  Outside that hypothesis the round
trip genuinely fails: a value encoding to a one-element Array (a
one-element Vec, a present Option) is flattened to one param whose
direct decode does not reconstruct the collection, and a well-typed
multi-byte char such as é encodes to a two-byte String, is not
flattened, yet is rejected by the byte-length-1 check of
deserialize_char. -/
theorem c5_params :
    (∀ (v : AppVal) (ps : List XValue), to_value v = .array ps → into_params v = ps)
    ∧ (∀ (ty : Ty) (p : XValue), from_params ty [p] = deserialize ty p)
    ∧ (∀ (ty : Ty) (v : AppVal), hasTy ty v = true →
        (∀ x : XValue, to_value v ≠ .array [x]) →
        from_params ty (into_params v) = .ok v)
    ∧ to_value (.vChar 'é') = .str "é"
    ∧ from_params .tChar (into_params (.vChar 'é')) =
        .error "string with a single character expected"
    ∧ from_params .tChar (into_params (.vChar 'é')) ≠ .ok (.vChar 'é') := by
  have hv : to_value (AppVal.vChar 'é') = .str "é" := by
    rw [to_value]
  have hlen : utf8Len "é" = 2 := by decide
  have herr : from_params .tChar (into_params (.vChar 'é')) =
      .error "string with a single character expected" := by
    rw [into_params, hv, from_params]
    simp [deserialize, hlen]
  refine ⟨?_, ?_, fun ty v h hnot => from_params_into_params ty v h hnot, hv, herr, ?_⟩
  · intro v ps hvv
    rw [into_params, hvv]
  · intro ty p
    rw [from_params]
  · rw [herr]
    intro hc
    cases hc

/-- C5 witness: a two-element tuple survives the params round trip. -/
theorem c5_params_witness :
    hasTy (Ty.tTuple [Ty.tI32, Ty.tBool]) (AppVal.vTuple [AppVal.vI32 1, AppVal.vBool true]) = true
    ∧ (∀ x : XValue,
        to_value (AppVal.vTuple [AppVal.vI32 1, AppVal.vBool true]) ≠ .array [x])
    ∧ from_params (Ty.tTuple [Ty.tI32, Ty.tBool])
        (into_params (AppVal.vTuple [AppVal.vI32 1, AppVal.vBool true])) =
      .ok (AppVal.vTuple [AppVal.vI32 1, AppVal.vBool true]) := by
  have hty : hasTy (Ty.tTuple [Ty.tI32, Ty.tBool])
      (AppVal.vTuple [AppVal.vI32 1, AppVal.vBool true]) = true := by
    rw [hasTy, hasTyZip, hasTy, hasTyZip, hasTy, hasTyZip]
    decide
  have hv : to_value (AppVal.vTuple [AppVal.vI32 1, AppVal.vBool true]) =
      .array [.int 1, .bool true] := by
    rw [to_value, to_value_list, to_value, to_value_list, to_value, to_value_list]
  have hnot : ∀ x : XValue,
      to_value (AppVal.vTuple [AppVal.vI32 1, AppVal.vBool true]) ≠ .array [x] := by
    intro x hc
    rw [hv] at hc
    simp at hc
  exact ⟨hty, hnot, c5_params.2.2.1 _ _ hty hnot⟩


/-- C6: integer mapping in the serde bridge.  i8, i16, i32, u8 and u16
serialize to Int; i64, u64 and u32 serialize to String holding the
decimal text; in particular u32 4200000000 becomes the String
"4200000000" (and parses back), while i32 -2000000000 stays an Int. -/
theorem c6_integer_mapping :
    (∀ n : Int, to_value (.vI8 n) = .int n)
    ∧ (∀ n : Int, to_value (.vI16 n) = .int n)
    ∧ (∀ n : Int, to_value (.vI32 n) = .int n)
    ∧ (∀ n : Nat, to_value (.vU8 n) = .int (n : Int))
    ∧ (∀ n : Nat, to_value (.vU16 n) = .int (n : Int))
    ∧ (∀ n : Int, to_value (.vI64 n) = .str (intDecString n))
    ∧ (∀ n : Nat, to_value (.vU64 n) = .str (natDecString n))
    ∧ (∀ n : Nat, to_value (.vU32 n) = .str (natDecString n))
    ∧ to_value (.vU32 4200000000) = .str "4200000000"
    ∧ deserialize .tU32 (.str "4200000000") = .ok (.vU32 4200000000)
    ∧ to_value (.vI32 (-2000000000)) = .int (-2000000000) := by
  refine ⟨fun n => by rw [to_value], fun n => by rw [to_value], fun n => by rw [to_value],
    fun n => by rw [to_value], fun n => by rw [to_value], fun n => by rw [to_value],
    fun n => by rw [to_value], fun n => by rw [to_value], ?_, ?_, by rw [to_value]⟩
  · rw [to_value, natDecString_4200000000]
  · have hp : parseUnsigned 4294967295 "4200000000" = some 4200000000 := by
      have h2 : (4294967295 : Nat) = 2 ^ 32 - 1 := by norm_num
      rw [h2, ← natDecString_4200000000]
      exact parseUnsigned_natDecString (by norm_num)
    simp [deserialize, handle_integer_unsigned, hp, exceptMap_ok]

/-- C7: Option mapping.  None encodes as the empty Array and Some x as
the one-element Array of the encoding of x; decoding an Option target
accepts the empty Array as None, a one-element Array as Some of the
decoded element, and rejects two or more elements; the round trip holds
for every well-typed Option value, in particular Some 33i32. -/
theorem c7_option_law :
    to_value .vNone = .array []
    ∧ to_value (.vSome (.vI32 33)) = .array [.int 33]
    ∧ (∀ t : Ty, deserialize (.tOption t) (.array []) = .ok .vNone)
    ∧ (∀ (t : Ty) (x : XValue), deserialize (.tOption t) (.array [x]) =
        (deserialize t x).map .vSome)
    ∧ (∀ (t : Ty) (vs : List XValue), 2 ≤ vs.length →
        deserialize (.tOption t) (.array vs) = .error "array with a single element expected")
    ∧ (∀ (t : Ty) (v : AppVal), hasTy (.tOption t) v = true →
        deserialize (.tOption t) (to_value v) = .ok v)
    ∧ deserialize (.tOption .tI32) (to_value (.vSome (.vI32 33))) = .ok (.vSome (.vI32 33))
    ∧ deserialize (.tOption .tI32) (to_value .vNone) = .ok .vNone := by
  refine ⟨by rw [to_value], ?_, fun t => by simp [deserialize], ?_, ?_,
    fun t v h => des_ser (.tOption t) v h,
    des_ser (.tOption .tI32) (.vSome (.vI32 33)) (by simp [hasTy]),
    des_ser (.tOption .tI32) .vNone (by simp [hasTy])⟩
  · rw [to_value, to_value]
  · intro t x
    simp [deserialize]
  · intro t vs h
    rcases vs with _ | ⟨a, _ | ⟨b, rest⟩⟩
    · simp at h
    · simp at h
    · simp [deserialize]

/-- C7 witness: the too-long arm and the round trip at Some true. -/
theorem c7_option_law_witness :
    2 ≤ ([XValue.int 1, XValue.int 2] : List XValue).length
    ∧ deserialize (.tOption .tI32) (.array [XValue.int 1, XValue.int 2]) =
        .error "array with a single element expected"
    ∧ hasTy (.tOption .tBool) (.vSome (.vBool true)) = true
    ∧ deserialize (.tOption .tBool) (to_value (.vSome (.vBool true))) =
        .ok (.vSome (.vBool true)) := by
  have hlen : 2 ≤ ([XValue.int 1, XValue.int 2] : List XValue).length := by decide
  have hty : hasTy (.tOption .tBool) (.vSome (.vBool true)) = true := by simp [hasTy]
  exact ⟨hlen, c7_option_law.2.2.2.2.1 .tI32 [XValue.int 1, XValue.int 2] hlen, hty,
    c7_option_law.2.2.2.2.2.1 .tBool (.vSome (.vBool true)) hty⟩

/-- C8: enum mapping.  Decoding an enum target demands a Struct with
exactly one member: the empty Struct and any Struct with two or more
members are rejected with the single-key error; a unit variant Foo
encodes as the Struct mapping Foo to an empty Struct and decodes back. -/
theorem c8_enum_shape :
    (∀ variants : List (String × VTy),
      deserialize (.tEnum variants) (.struct []) = .error "map with a single key expected")
    ∧ (∀ (variants : List (String × VTy)) (m1 m2 : String × XValue)
        (rest : List (String × XValue)),
      deserialize (.tEnum variants) (.struct (m1 :: m2 :: rest)) =
        .error "map with a single key expected")
    ∧ to_value (.vUnitVariant "Foo") = .struct [("Foo", .struct [])]
    ∧ deserialize (.tEnum [("Foo", VTy.unitV)]) (.struct [("Foo", .struct [])]) =
      .ok (.vUnitVariant "Foo") := by
  refine ⟨fun variants => by simp [deserialize], ?_, by rw [to_value], ?_⟩
  · intro variants m1 m2 rest
    simp [deserialize]
  · have hv : to_value (AppVal.vUnitVariant "Foo") = .struct [("Foo", .struct [])] := by
      rw [to_value]
    rw [← hv]
    exact des_ser (.tEnum [("Foo", VTy.unitV)]) (.vUnitVariant "Foo") (by simp [hasTy])


/-- C9 counterexample: inside an array, a child value that fails to
decode (here i4 with non-numeric text) is silently dropped rather than
failing the whole array: the document decodes to Ok of a one-element
array instead of the error the claim demands. -/
theorem c9_counterexample :
    Value.read_xml (XmlNode.element "value" [XmlNode.element "array" [XmlNode.element "data"
      [XmlNode.element "value" [XmlNode.element "i4" [XmlNode.text "5"]],
       XmlNode.element "value" [XmlNode.element "i4" [XmlNode.text "bad"]]]]]) =
      .ok (.array [.int 5])
    ∧ parseI32 "bad" = none := by
  have hp5 : parseI32 "5" = some 5 := by decide
  have hpbad : parseI32 "bad" = none := by decide
  have hv5 : Value.read_xml (XmlNode.element "value" [XmlNode.element "i4" [XmlNode.text "5"]]) =
      .ok (.int 5) := by
    rw [Value.read_xml]
    simp [XmlNode.tagOf, XmlNode.childrenOf, List.find?, XmlNode.isElem,
      XmlNode.isTextNode, literal_text_in_node, hp5]
  have hbad : Value.read_xml (XmlNode.element "value"
      [XmlNode.element "i4" [XmlNode.text "bad"]]) = .error "invalid integer" := by
    rw [Value.read_xml]
    simp [XmlNode.tagOf, XmlNode.childrenOf, List.find?, XmlNode.isElem,
      XmlNode.isTextNode, literal_text_in_node, hpbad]
  refine ⟨?_, hpbad⟩
  rw [Value.read_xml]
  simp only [XmlNode.tagOf, XmlNode.childrenOf, List.find?, XmlNode.isElem,
    eq_self_iff_true, decide_True, ne_eq, ite_false, not_true_eq_false]
  split
  · rename_i d heq
    simp at heq
    subst heq
    simp [XmlNode.childrenOf, readValues, hv5, hbad]
  · rename_i heq
    simp at heq

/-- C9 amended: the children of a data node are read by a filter-map
that keeps only the successfully decoded values and silently skips the
rest; when every element is well formed (as produced by the writer) the
whole list is recovered. -/
theorem c9_array_reading :
    (∀ cs : List XmlNode,
      readValues cs = cs.filterMap (fun c => (Value.read_xml c).toOption))
    ∧ (∀ vs : List Value, wfList vs = true → readValues (writeValues vs) = vs) :=
  ⟨readValues_eq_filterMap, readValues_writeValues⟩

/-- C9 witness: a two-element well-formed array round trips. -/
theorem c9_array_reading_witness :
    wfList [Value.int 1, Value.str "a"] = true
    ∧ readValues (writeValues [Value.int 1, Value.str "a"]) = [Value.int 1, Value.str "a"] := by
  have h : wfList [Value.int 1, Value.str "a"] = true := by
    rw [wfList, wfList, wfList]
    simp [Value.wf]
  exact ⟨h, c9_array_reading.2 _ h⟩

/-- C10: into_struct_kv_pairs returns the raw member pairs of a Struct
and None on every other variant; into_struct additionally folds the
pairs into the HashMap model, where lookup returns the value of the
last occurrence of a key. -/
theorem c10_into_struct :
    (∀ ps : List (String × Value), (Value.struct ps).into_struct_kv_pairs = some ps)
    ∧ (∀ ps : List (String × Value), (Value.struct ps).into_struct = some (hmOfList ps))
    ∧ (∀ (ps : List (String × Value)) (k : String),
        hmLookup (hmOfList ps) k = lookupLast ps k)
    ∧ (∀ n : Int, (Value.int n).into_struct_kv_pairs = none
        ∧ (Value.int n).into_struct = none)
    ∧ (∀ b : Bool, (Value.bool b).into_struct_kv_pairs = none
        ∧ (Value.bool b).into_struct = none)
    ∧ (∀ s : String, (Value.str s).into_struct_kv_pairs = none
        ∧ (Value.str s).into_struct = none)
    ∧ (∀ f : F64, (Value.double f).into_struct_kv_pairs = none
        ∧ (Value.double f).into_struct = none)
    ∧ (∀ dt : DT, (Value.dateTime dt).into_struct_kv_pairs = none
        ∧ (Value.dateTime dt).into_struct = none)
    ∧ (∀ bs : List Nat, (Value.base64 bs).into_struct_kv_pairs = none
        ∧ (Value.base64 bs).into_struct = none)
    ∧ (∀ vs : List Value, (Value.array vs).into_struct_kv_pairs = none
        ∧ (Value.array vs).into_struct = none) :=
  ⟨fun ps => rfl, fun ps => rfl, fun ps k => hmLookup_hmOfList ps k,
   fun n => ⟨rfl, rfl⟩, fun b => ⟨rfl, rfl⟩, fun s => ⟨rfl, rfl⟩, fun f => ⟨rfl, rfl⟩,
   fun dt => ⟨rfl, rfl⟩, fun bs => ⟨rfl, rfl⟩, fun vs => ⟨rfl, rfl⟩⟩


end XmlRpc


